import Mathlib

/-!
# secretcli: the command layer (`internal/secret/cli.go`)

A shallow embedding of the command layer of the secret manager: flag dispatch
(`Execute`), the one-call commands (`exportSecret`, `listSecrets`,
`deleteSecret`), the interactive `addSecret` with its raw-keyboard
`getPassword`, and the menu loop of `editSecret`.

Conventions of the embedding.

* Every interaction with the outside (text printed, a line scanned, a call of
  a store method, of `utils.Encrypt`, of the keyboard) is recorded, in program
  order, as an `Event`; a command returns the events it produced together with
  an `Outcome`.
* The store methods, `utils.Encrypt`, `Suggest` and the clock live in other
  files; their behaviour is a parameter (`Collab`).  `Validate` is modelled
  from the specification.
* `*time.Time` is a pointer: `Secret.UpdatedAt` is an optional address into
  `World.heap`.
* `for { ... }` loops are run by a body function and a fuel-indexed iteration;
  a run that has not returned within the fuel is reported as `running`.
-/

namespace SecretCli

/-! ## Data model -/

/-- An error value, represented by its text (`err.Error()`). -/
abbrev Err := String

/-- A `time.Time` instant. The zero value is `0`. -/
abbrev Time := Nat

/-- A Go string seen as its bytes (each below 256). Used for the password
buffer of `getPassword`, which is sliced by byte. -/
abbrev Bytes := List Nat

/-- The record type `Secret`. Its declaration is in another file; the fields
are those used by `cli.go` (`Title` ... `Website`, `UpdatedAt`) and `CreatedAt`
from the specification. `UpdatedAt` has type `*time.Time`: `none` is `nil`,
`some a` points to cell `a` of the heap. -/
structure Secret where
  Title : String
  Username : String
  Password : String
  Note : String
  Email : String
  Website : String
  CreatedAt : Time
  UpdatedAt : Option Nat
deriving DecidableEq

/-- The memory a command works on: the collection `*secrets` (a slice of
`Secret` values), the heap cells that `*time.Time` pointers refer to, and the
number of `Suggest` calls made so far (the state of its random source). -/
structure World where
  secrets : List Secret
  heap : List Time
  suggested : Nat
deriving DecidableEq

/-- The flags of the command line. -/
structure CmdFlags where
  Add : Bool
  List : Bool
  Delete : Int
  Edit : Int
  Export : Bool
deriving DecidableEq

/-- Everything a command does that is visible outside it, in program order. -/
inductive Event where
  /-- Output of `fmt.Print(text)`. -/
  | Print (text : String)
  /-- Output of `fmt.Println(args...)`. -/
  | Println (args : List String)
  /-- Output of `fmt.Printf(format ++ tail)`: the format string is the
  concatenation of a literal and the password buffer, without arguments. -/
  | PrintfRaw (format : String) (tail : Bytes)
  /-- Output of `fmt.Printf(format, arg)` with one string argument. -/
  | Printf (format : String) (arg : Bytes)
  /-- Output of `fmt.Print(string(char))`. -/
  | PrintBytes (bytes : Bytes)
  /-- One call of `scanner.Scan()`, with its result and the token it left. -/
  | Scan (ok : Bool) (text : String)
  | KeyboardOpen
  | KeyboardClose
  /-- One call of `keyboard.GetKey()`. -/
  | GetKey
  | Export
  | ListSecrets
  | Delete (index : Int)
  | Add (title username : String) (password : Bytes) (note email website : String)
  | Validate (index : Int)
  /-- A call of `secrets.Edit(index, secret)`, with the memory at the call. -/
  | Edit (w : World) (index : Int) (secret : Secret)
  /-- A call of `secrets.Suggest()` and the string it returned. -/
  | Suggest (result : Bytes)
  /-- A call of `utils.Encrypt(plain)`. -/
  | Encrypt (plain : String)
deriving DecidableEq

/-- The collaborators of the command layer, defined outside `cli.go`: the
methods of `Secrets`, `utils.Encrypt` and the clock. A store method gets the
memory and returns the memory it leaves and its `error` result. `Suggest n` is
the string returned by the call made after `n` earlier calls. -/
structure Collab where
  Export : World → World × Option Err
  ListSecrets : World → World × Option Err
  Delete : World → Int → World × Option Err
  Add : World → String → String → Bytes → String → String → String → World × Option Err
  Edit : World → Int → Secret → World × Option Err
  Suggest : Nat → Bytes
  Encrypt : String → String × Option Err
  Now : Time

/-- How a command ends: it returns, it panics (index out of range), or it
is still running (waiting for a key, or looping) when the fuel is used up. -/
inductive Outcome where
  | returned (w : World)
  | panicked (w : World)
  | running (w : World)
deriving DecidableEq

/-- The memory an outcome carries. -/
def Outcome.world : Outcome → World
  | .returned w => w
  | .panicked w => w
  | .running w => w

/-! ## Standard input and `bufio.Scanner` -/

/-- Go `bufio.MaxScanTokenSize`: the size to which the buffer of a scanner
grows at most. -/
def MaxScanTokenSize : Nat := 64 * 1024

/-- Go `bufio.ErrTooLong`. -/
def ErrTooLong : Err := "bufio.Scanner: token too long"

/-- The number of bytes of the UTF-8 encoding of a character. -/
def charBytes (c : Char) : Nat :=
  if c.toNat < 0x80 then 1 else if c.toNat < 0x800 then 2 else if c.toNat < 0x10000 then 3 else 4

/-- Go `len(s)`: the number of bytes of a string. -/
def byteLength (s : String) : Nat := (s.data.map charBytes).sum

/-- The longest run of whole characters at the start of `cs` that fits in `n`
bytes. -/
def takeBytesAux : Nat → List Char → List Char
  | _, [] => []
  | n, c :: cs => if charBytes c ≤ n then c :: takeBytesAux (n - charBytes c) cs else []

/-- The first `n` bytes of a string (up to the last whole character in them). -/
def takeBytes (n : Nat) (s : String) : String := String.mk (takeBytesAux n s.data)

/-- A read error of `os.Stdin`: the error and the bytes of an unterminated
last line that were read before it, if there are any. -/
structure ReadError where
  err : Err
  fragment : Option String
deriving DecidableEq

/-- The content of `os.Stdin` as the line splitter sees it: the lines still
to come, each without its line terminator (the last one may be ended by the
end of input instead), and how reading ends after them (`none`: end of
input, `some e`: a read error, possibly after part of a further line). -/
structure Stdin where
  lines : List String
  failure : Option ReadError
deriving DecidableEq

/-- A `bufio.Scanner` with the default line splitter: the input left, the
token of the last `Scan` and the error recorded so far. -/
structure Scanner where
  src : Stdin
  token : String
  err : Option Err
deriving DecidableEq

/-- Go `bufio.NewScanner(os.Stdin)`. -/
def NewScanner (r : Stdin) : Scanner := ⟨r, "", none⟩

/-- Go `setErr` of the scanner: the first error recorded is kept. -/
def setErr (old : Option Err) (e : Err) : Option Err :=
  match old with
  | none => some e
  | some x => some x

/-- The scanner meets a line `l` that does not fit its buffer: `Scan` records
`ErrTooLong`, clears the token and returns false. Nothing more is read; the
`MaxScanTokenSize` bytes in the buffer are what a later `Scan` delivers. -/
def Scanner.failTooLong (s : Scanner) (l : String) : Bool × Scanner :=
  (false,
    { src := ⟨[], some ⟨ErrTooLong, some (takeBytes MaxScanTokenSize l)⟩⟩
      token := ""
      err := setErr s.err ErrTooLong })

/-- Go `scanner.Scan()`. A line is delivered as the token when it fits the
buffer (it has fewer than `MaxScanTokenSize` bytes); otherwise `Scan` fails
with `ErrTooLong`. With no line left: at the end of input `Scan` clears the
token and returns false; at a read error it records the error and, when part
of a line was read before the error, delivers that part as a token (so
`Err()` is already set when this token is seen), else clears the token and
returns false. Once an error is recorded, what the buffer holds is delivered
without the size check. -/
def Scanner.Scan (s : Scanner) : Bool × Scanner :=
  match s.src.lines with
  | l :: rest =>
    if s.err = none ∧ MaxScanTokenSize ≤ byteLength l then s.failTooLong l
    else (true, { s with src := { s.src with lines := rest }, token := l })
  | [] =>
    match s.src.failure with
    | none => (false, { s with token := "" })
    | some ⟨e, some f⟩ =>
      if s.err = none ∧ MaxScanTokenSize ≤ byteLength f then s.failTooLong f
      else (true, { src := ⟨[], some ⟨e, none⟩⟩, token := f, err := setErr s.err e })
    | some ⟨e, none⟩ => (false, { s with token := "", err := setErr s.err e })

/-- Go `scanner.Text()`. -/
def Scanner.Text (s : Scanner) : String := s.token

/-- Go `scanner.Err()`. -/
def Scanner.Err (s : Scanner) : Option Err := s.err

/-! ## `Validate` -/

/-- Modelled from the spec: `Secrets.Validate`, whose body is in another file.
"`Validate(index) -> () | IndexError`: fails if `index < 0` or
`index >= len(collection)`." -/
def Validate (secrets : List Secret) (index : Int) : Option Err :=
  if index < 0 ∨ index ≥ (secrets.length : Int) then some "invalid index" else none

/-- Go `(*secrets)[index]`: `none` stands for the run-time panic of an index
out of range. -/
def indexSecrets (secrets : List Secret) (index : Int) : Option Secret :=
  if index < 0 then none else secrets[index.toNat]?

/-! ## `Execute` and the one-call commands -/

/-- The default flag values registered by `RegisterFlags`. -/
def RegisterFlags : CmdFlags :=
  { Add := false, List := false, Delete := -1, Edit := -1, Export := false }

/-- Go `exportSecret`. -/
def exportSecret (env : Collab) (w : World) : List Event × Outcome :=
  match env.Export w with
  | (w1, some e) => ([.Export, .Println ["Error exporting secret:", e]], .returned w1)
  | (w1, none) => ([.Export, .Println ["Secret exported successfully!"]], .returned w1)

/-- Go `listSecrets`. -/
def listSecrets (env : Collab) (w : World) : List Event × Outcome :=
  match env.ListSecrets w with
  | (w1, some e) => ([.ListSecrets, .Println ["Error listing secrets:", e]], .returned w1)
  | (w1, none) => ([.ListSecrets], .returned w1)

/-- Go `deleteSecret`. -/
def deleteSecret (env : Collab) (cf : CmdFlags) (w : World) : List Event × Outcome :=
  match env.Delete w cf.Delete with
  | (w1, some e) => ([.Delete cf.Delete, .Println ["Error deleting secret:", e]], .returned w1)
  | (w1, none) => ([.Delete cf.Delete, .Println ["Secret deleted successfully!"]], .returned w1)

/-! ## `getPassword` -/

/-- One result of `keyboard.GetKey()`: the rune, the key code and the error. -/
structure KeyEvent where
  char : Int
  key : Nat
  err : Option Err
deriving DecidableEq

/-- Key code `keyboard.KeyEnter`. -/
def KeyEnter : Nat := 0x0D

/-- Key code `keyboard.KeyBackspace`. -/
def KeyBackspace : Nat := 0x08

/-- Key code `keyboard.KeyTab`. -/
def KeyTab : Nat := 0x09

/-- Go `string(char)` for a rune: its UTF-8 encoding, where a rune that is
negative, above U+10FFFF or a surrogate is replaced by U+FFFD. -/
def encodeRune (r : Int) : Bytes :=
  if r < 0 ∨ 0x10FFFF < r ∨ (0xD800 ≤ r ∧ r ≤ 0xDFFF) then [0xEF, 0xBF, 0xBD]
  else
    let n := r.toNat
    if n ≤ 0x7F then [n]
    else if n ≤ 0x7FF then [0xC0 ||| (n >>> 6), 0x80 ||| (n &&& 0x3F)]
    else if n ≤ 0xFFFF then
      [0xE0 ||| (n >>> 12), 0x80 ||| ((n >>> 6) &&& 0x3F), 0x80 ||| (n &&& 0x3F)]
    else
      [0xF0 ||| (n >>> 18), 0x80 ||| ((n >>> 12) &&& 0x3F), 0x80 ||| ((n >>> 6) &&& 0x3F),
        0x80 ||| (n &&& 0x3F)]

/-- The prompt of `getPassword`. -/
def passwordPrompt : String := "Enter Password (press Tab for a suggested password): "

/-- Go `s[:n]` on a string: `none` stands for the run-time panic of a slice
bound out of range. -/
def sliceTo (s : Bytes) (n : Int) : Option Bytes :=
  if 0 ≤ n ∧ n ≤ (s.length : Int) then some (s.take n.toNat) else none

/-- What one pass through the body of the key loop does. -/
inductive KeyStep where
  /-- The loop goes on with this buffer and memory. -/
  | next (password : Bytes) (w : World)
  /-- The function returns `(password, err)`. -/
  | done (password : Bytes) (err : Option Err) (w : World)
  /-- The pass panics (slice bound out of range). -/
  | panic (w : World)
deriving DecidableEq

/-- The body of the `for` loop of `getPassword` for one result `k` of
`GetKey`, with `password` the buffer before it. -/
def getPasswordBody (env : Collab) (k : KeyEvent) (password : Bytes) (w : World) :
    List Event × KeyStep :=
  match k.err with
  | some e => ([.GetKey], .done [] (some ("error reading input: " ++ e)) w)
  | none =>
    if k.key = KeyEnter then ([.GetKey], .done password none w)
    else if k.key = KeyBackspace then
      if password.length > 0 then
        match sliceTo password ((password.length : Int) - 1) with
        | none => ([.GetKey], .panic w)
        | some password1 =>
          ([.GetKey, .PrintfRaw ("\r" ++ passwordPrompt) password1, .Print "\x1b[K"],
            .next password1 w)
      else ([.GetKey], .next password w)
    else if k.key = KeyTab then
      let password1 := env.Suggest w.suggested
      ([.GetKey, .Suggest password1,
          .Printf "\rEnter Password (press Tab for a suggested password): %s" password1,
          .Print "\x1b[K"],
        .next password1 { w with suggested := w.suggested + 1 })
    else if k.char ≠ 0 then
      ([.GetKey, .PrintBytes (encodeRune k.char)], .next (password ++ encodeRune k.char) w)
    else ([.GetKey], .next password w)

/-- How `getPassword` ends. -/
inductive PwResult where
  /-- The function returned `(password, err)`. -/
  | returned (password : Bytes) (err : Option Err)
  /-- The function waits in `GetKey` for a key that does not come. -/
  | blocked (password : Bytes)
  /-- The function panicked. -/
  | panicked
deriving DecidableEq

/-- The `for` loop of `getPassword` over the results of `GetKey` to come. -/
def getPasswordLoop (env : Collab) : List KeyEvent → Bytes → World → List Event × World × PwResult
  | [], password, w => ([], w, .blocked password)
  | k :: ks, password, w =>
    match getPasswordBody env k password w with
    | (ev, .done p e w1) => (ev, w1, .returned p e)
    | (ev, .panic w1) => (ev, w1, .panicked)
    | (ev, .next p w1) =>
      let r := getPasswordLoop env ks p w1
      (ev ++ r.1, r.2)

/-- The keyboard as `getPassword` sees it: the result of `keyboard.Open()` and
the results of the calls of `GetKey` to come. -/
structure Keyboard where
  openErr : Option Err
  keys : List KeyEvent
deriving DecidableEq

/-- Go `getPassword`. The deferred `keyboard.Close()` runs at each return that
follows a successful `Open`. -/
def getPassword (env : Collab) (w : World) (kb : Keyboard) : List Event × World × PwResult :=
  match kb.openErr with
  | some e =>
    ([.Print passwordPrompt, .KeyboardOpen], w, .returned [] (some ("error opening keyboard: " ++ e)))
  | none =>
    match getPasswordLoop env kb.keys [] w with
    | (ev, w1, .returned p e) =>
      ([.Print passwordPrompt, .KeyboardOpen] ++ ev ++ [.KeyboardClose], w1, .returned p e)
    | (ev, w1, .blocked p) => ([.Print passwordPrompt, .KeyboardOpen] ++ ev, w1, .blocked p)
    | (ev, w1, .panicked) =>
      ([.Print passwordPrompt, .KeyboardOpen] ++ ev ++ [.KeyboardClose], w1, .panicked)

/-! ## `addSecret` -/

/-- Go `addSecret`. -/
def addSecret (env : Collab) (w : World) (stdin : Stdin) (kb : Keyboard) : List Event × Outcome :=
  let sc0 := NewScanner stdin
  let s1 := sc0.Scan
  let title := s1.2.Text
  let s2 := s1.2.Scan
  let username := s2.2.Text
  let ev0 : List Event :=
    [.Println ["Adding a new secret..."], .Print "Enter Title: ", .Scan s1.1 s1.2.Text,
      .Print "Enter Username: ", .Scan s2.1 s2.2.Text]
  match getPassword env w kb with
  | (evp, w1, .blocked _) => (ev0 ++ evp, .running w1)
  | (evp, w1, .panicked) => (ev0 ++ evp, .panicked w1)
  | (evp, w1, .returned _ (some _)) => (ev0 ++ evp, .returned w1)
  | (evp, w1, .returned password none) =>
    let s3 := s2.2.Scan
    let s4 := s3.2.Scan
    let note := s4.2.Text
    let s5 := s4.2.Scan
    let email := s5.2.Text
    let s6 := s5.2.Scan
    let website := s6.2.Text
    let ev1 : List Event :=
      [.Scan s3.1 s3.2.Text, .Print "Enter Note (optional): ", .Scan s4.1 s4.2.Text,
        .Print "Enter Email (optional): ", .Scan s5.1 s5.2.Text,
        .Print "Enter Website (optional): ", .Scan s6.1 s6.2.Text]
    match s6.2.Err with
    | some e => (ev0 ++ evp ++ ev1 ++ [.Println ["Error reading input:", e]], .returned w1)
    | none =>
      match env.Add w1 title username password note email website with
      | (w2, some e) =>
        (ev0 ++ evp ++ ev1 ++
          [.Add title username password note email website, .Println ["Error adding secret:", e]],
          .returned w2)
      | (w2, none) =>
        (ev0 ++ evp ++ ev1 ++
          [.Add title username password note email website, .Println ["Secret added successfully!"]],
          .returned w2)

/-! ## `editSecret` -/

/-- The variables of the menu loop of `editSecret`: the working copy `secret`,
the scanner and the memory. -/
structure EditState where
  secret : Secret
  scanner : Scanner
  w : World
deriving DecidableEq

/-- What one pass through the body of the menu loop does. -/
inductive EditStep where
  /-- The loop goes on in this state. -/
  | next (st : EditState)
  /-- The function returns, leaving this memory. -/
  | done (w : World)
deriving DecidableEq

/-- The menu printed at the start of each pass, up to the prompt. -/
def menuPrints : List Event :=
  [.Println ["Select field to edit:"], .Println ["1. Title"], .Println ["2. Username"],
    .Println ["3. Password"], .Println ["4. Note"], .Println ["5. Email"],
    .Println ["6. Website"], .Println ["7. Save and Exit"], .Print "Enter your choice (1-7): "]

/-- The end of the loop body, `if err := scanner.Err(); err != nil`: report
the read error and return, or go round again. `ev` are the events of the pass
so far and `st` the state reached. -/
def checkErr (ev : List Event) (st : EditState) : List Event × EditStep :=
  match st.scanner.Err with
  | some e => (ev ++ [.Println ["Error reading input:", e]], .done st.w)
  | none => (ev, .next st)

/-- The body of the `for` loop of `editSecret`. -/
def editBody (env : Collab) (index : Int) (st : EditState) : List Event × EditStep :=
  let s1 := st.scanner.Scan
  if s1.1 then
    let choice := s1.2.Text
    let ev := menuPrints ++ [.Scan true choice]
    if choice = "1" then
      let s2 := s1.2.Scan
      checkErr (ev ++ [.Print "Enter new Title: ", .Scan s2.1 s2.2.Text])
        { st with secret := { st.secret with Title := s2.2.Text }, scanner := s2.2 }
    else if choice = "2" then
      let s2 := s1.2.Scan
      checkErr (ev ++ [.Print "Enter new Username: ", .Scan s2.1 s2.2.Text])
        { st with secret := { st.secret with Username := s2.2.Text }, scanner := s2.2 }
    else if choice = "3" then
      let s2 := s1.2.Scan
      checkErr (ev ++ [.Print "Enter new Password: ", .Scan s2.1 s2.2.Text, .Encrypt s2.2.Text])
        { st with secret := { st.secret with Password := (env.Encrypt s2.2.Text).1 },
                  scanner := s2.2 }
    else if choice = "4" then
      let s2 := s1.2.Scan
      checkErr (ev ++ [.Print "Enter new Note: ", .Scan s2.1 s2.2.Text])
        { st with secret := { st.secret with Note := s2.2.Text }, scanner := s2.2 }
    else if choice = "5" then
      let s2 := s1.2.Scan
      checkErr (ev ++ [.Print "Enter new Email: ", .Scan s2.1 s2.2.Text])
        { st with secret := { st.secret with Email := s2.2.Text }, scanner := s2.2 }
    else if choice = "6" then
      let s2 := s1.2.Scan
      checkErr (ev ++ [.Print "Enter new Website: ", .Scan s2.1 s2.2.Text])
        { st with secret := { st.secret with Website := s2.2.Text }, scanner := s2.2 }
    else if choice = "7" then
      -- secret.UpdatedAt = new(time.Time)
      let a := st.w.heap.length
      let secret1 := { st.secret with UpdatedAt := some a }
      let w1 := { st.w with heap := st.w.heap ++ [0] }
      -- *secret.UpdatedAt = time.Now()
      let w2 := { w1 with heap := w1.heap.set a env.Now }
      match env.Edit w2 index secret1 with
      | (w3, some e) =>
        (ev ++ [.Edit w2 index secret1, .Println ["Error updating secret:", e]], .done w3)
      | (w3, none) =>
        (ev ++ [.Edit w2 index secret1, .Println ["Secret updated successfully!"]], .done w3)
    else
      checkErr (ev ++ [.Println ["Invalid choice. Please try again."]]) { st with scanner := s1.2 }
  else
    checkErr (menuPrints ++ [.Scan false s1.2.Text]) { st with scanner := s1.2 }

/-- Where the menu loop stands after some passes. -/
inductive EditRun where
  /-- The loop has not returned; this is its state. -/
  | running (st : EditState)
  /-- The function has returned, leaving this memory. -/
  | returned (w : World)
deriving DecidableEq

/-- The menu loop run for at most `fuel` passes from `st`: the events of these
passes and where the loop stands. -/
def editLoop (env : Collab) (index : Int) : Nat → EditState → List Event × EditRun
  | 0, st => ([], .running st)
  | fuel + 1, st =>
    match editBody env index st with
    | (ev, .done w) => (ev, .returned w)
    | (ev, .next st1) =>
      let r := editLoop env index fuel st1
      (ev ++ r.1, r.2)

/-- The outcome of a command whose menu loop stands at `r`. -/
def EditRun.outcome : EditRun → Outcome
  | .running st => .running st.w
  | .returned w => .returned w

/-- Go `editSecret`, its menu loop run for at most `fuel` passes. -/
def editSecret (env : Collab) (fuel : Nat) (w : World) (stdin : Stdin) (index : Int) :
    List Event × Outcome :=
  match Validate w.secrets index with
  | some e => ([.Validate index, .Println ["Error validating secret index:", e]], .returned w)
  | none =>
    match indexSecrets w.secrets index with
    | none => ([.Validate index], .panicked w)
    | some secret =>
      let r := editLoop env index fuel ⟨secret, NewScanner stdin, w⟩
      ([.Validate index, .Println ["Editing secret:", secret.Title]] ++ r.1, r.2.outcome)

/-! ## `Execute` -/

/-- Go `Execute`: the `switch` over the flags. `fuel` bounds the passes of the
menu loop of `editSecret`. -/
def Execute (env : Collab) (fuel : Nat) (cf : CmdFlags) (w : World) (stdin : Stdin)
    (kb : Keyboard) : List Event × Outcome :=
  if cf.List then listSecrets env w
  else if cf.Delete ≠ -1 then deleteSecret env cf w
  else if cf.Add then addSecret env w stdin kb
  else if cf.Edit ≠ -1 then editSecret env fuel w stdin cf.Edit
  else if cf.Export then exportSecret env w
  else ([.Println ["Invalid Command. Use --help to see available commands."]], .returned w)

/-! ## Vocabulary for stating properties of the menu dialogue -/

/-- Whether a menu line selects one of the six fields. -/
def isField (c : String) : Bool :=
  c = "1" || c = "2" || c = "3" || c = "4" || c = "5" || c = "6"

/-- The lines of an input that `editSecret` reads at the menu prompt, up to
and including the first "7" read there. `value` tells that the next line is
read as the value of a field chosen just before, not at the menu. -/
def menuLinesAux : Bool → List String → List String
  | _, [] => []
  | true, _ :: rest => menuLinesAux false rest
  | false, c :: rest => if c = "7" then [c] else c :: menuLinesAux (isField c) rest

/-- The lines of an input that `editSecret` reads at the menu prompt. -/
def menuLines (lines : List String) : List String := menuLinesAux false lines

/-- One exchange of the menu dialogue that is not the save: a field choice
with the value typed for it, or a menu line that is none of "1" ... "7". -/
inductive Item where
  | field (choice value : String)
  | other (line : String)
deriving DecidableEq

/-- An exchange is well formed: the choice is one of "1" ... "6", the other
line is none of "1" ... "7". -/
def Item.ok : Item → Bool
  | .field c _ => isField c
  | .other l => !(isField l) && l ≠ "7"

/-- The input lines of a sequence of exchanges. -/
def itemLines : List Item → List String
  | [] => []
  | .field c v :: rest => c :: v :: itemLines rest
  | .other l :: rest => l :: itemLines rest

/-- The last value supplied for the field with menu number `c`, if any. -/
def lastValue (c : String) : List Item → Option String
  | [] => none
  | .field c1 v :: rest =>
    match lastValue c rest with
    | some x => some x
    | none => if c1 = c then some v else none
  | .other _ :: rest => lastValue c rest

/-- Whether an event is a call of `secrets.Edit`. -/
def Event.isEdit : Event → Bool
  | .Edit _ _ _ => true
  | _ => false

/-- Whether an event is a call of `secrets.Suggest`. -/
def Event.isSuggest : Event → Bool
  | .Suggest _ => true
  | _ => false

/-- Whether a key event is the Tab key. -/
def KeyEvent.isTab (k : KeyEvent) : Bool := k.key = KeyTab

/-- Whether a key event is the Enter key. -/
def KeyEvent.isEnter (k : KeyEvent) : Bool := k.key = KeyEnter

/-- A key event that types a character: a non-zero rune with a key code that
is none of Enter, Backspace, Tab, read without error. -/
def KeyEvent.isTyped (k : KeyEvent) : Bool :=
  k.err = none && k.char ≠ 0 && k.key ≠ KeyEnter && k.key ≠ KeyBackspace && k.key ≠ KeyTab

/-! ## Vocabulary for the menu loop -/

/-- The working copy after the value `v` is stored for menu choice `c`. -/
def setField (env : Collab) (c v : String) (s : Secret) : Secret :=
  if c = "1" then { s with Title := v }
  else if c = "2" then { s with Username := v }
  else if c = "3" then { s with Password := (env.Encrypt v).1 }
  else if c = "4" then { s with Note := v }
  else if c = "5" then { s with Email := v }
  else if c = "6" then { s with Website := v }
  else s

/-- The state of the menu loop with no read error recorded. -/
def loopState (w : World) (failure : Option ReadError) (secret : Secret) (lines : List String)
    (token : String) : EditState :=
  ⟨secret, ⟨⟨lines, failure⟩, token, none⟩, w⟩

/-- The memory at the `Edit` call of the save step: a fresh cell holding the
clock reading is added to the heap. -/
def saveWorld (env : Collab) (w : World) : World :=
  { w with heap := (w.heap ++ [0]).set w.heap.length env.Now }

/-- The record passed to `Edit` at the save step: the working copy with
`UpdatedAt` pointing to the fresh cell. -/
def saveSecret (w : World) (secret : Secret) : Secret :=
  { secret with UpdatedAt := some w.heap.length }

/-- The line printed after the `Edit` call, for its `error` result. -/
def saveMessage : Option Err → List String
  | some e => ["Error updating secret:", e]
  | none => ["Secret updated successfully!"]

/-- The memory held by a run of the menu loop. -/
def EditRun.world : EditRun → World
  | .running st => st.w
  | .returned w => w

/-- The field of a record selected by a menu number "1" ... "6". -/
def Secret.get (s : Secret) (f : String) : String :=
  if f = "1" then s.Title
  else if f = "2" then s.Username
  else if f = "3" then s.Password
  else if f = "4" then s.Note
  else if f = "5" then s.Email
  else if f = "6" then s.Website
  else ""

/-- Every `Edit` call in a trace comes right after "7" was scanned at the
menu prompt. -/
def EditsFollowSave (t : List Event) : Prop :=
  ∀ pre post w1 i r, t = pre ++ Event.Edit w1 i r :: post →
    ∃ pre1, pre = pre1 ++ [.Print "Enter your choice (1-7): ", .Scan true "7"]

/-- The working copy after a sequence of exchanges, starting from `s`. -/
def applyItems (env : Collab) : List Item → Secret → Secret
  | [], s => s
  | .field c v :: rest, s => applyItems env rest (setField env c v s)
  | .other _ :: rest, s => applyItems env rest s

/-- What is stored in field `f` for the typed value `v`: the first result of
`utils.Encrypt` for the password, the value itself for the other fields. -/
def storedValue (env : Collab) (f v : String) : String :=
  if f = "3" then (env.Encrypt v).1 else v

/-! ## Sample collaborators and data -/

/-- Sample collaborators: every store call succeeds, `Edit` replaces the
record, `Encrypt` wraps its argument. -/
def sampleEnv : Collab :=
  { Export := fun w => (w, none)
    ListSecrets := fun w => (w, none)
    Delete := fun w _ => (w, none)
    Add := fun w _ _ _ _ _ _ => (w, none)
    Edit := fun w i s => ({ w with secrets := w.secrets.set i.toNat s }, none)
    Suggest := fun n => [83, 48 + n]
    Encrypt := fun s => ("enc:" ++ s, none)
    Now := 77 }

/-- Sample collaborators whose `Encrypt` fails (returns the empty string and
an error), all else as in `sampleEnv`. -/
def failingEncryptEnv : Collab :=
  { sampleEnv with Encrypt := fun _ => ("", some "key unavailable") }

/-- A sample record, created at time 5 and never edited. -/
def sampleSecret : Secret :=
  { Title := "Bank", Username := "alice", Password := "c0", Note := "", Email := "",
    Website := "bank.com", CreatedAt := 5, UpdatedAt := none }

/-- A sample memory holding the one sample record. -/
def sampleWorld : World := { secrets := [sampleSecret], heap := [], suggested := 0 }

/-- A sample memory whose one record was edited before: its `UpdatedAt`
points to cell 0 of the heap, which holds time 3. -/
def editedWorld : World :=
  { secrets := [{ sampleSecret with UpdatedAt := some 0 }], heap := [3], suggested := 0 }

/-- Whether an event is a printed line that carries the error text `err`. -/
def Event.reports (err : Err) : Event → Bool
  | .Println args => args.contains err
  | _ => false

/-! ## Vocabulary for inputs of the scanner -/

/-- Whether a line fits the buffer of the scanner. -/
def fits (l : String) : Bool := byteLength l < MaxScanTokenSize

/-- The tokens that successive calls of `Scan` deliver, from a scanner with no
error recorded, up to the first call that returns false: the lines up to the
first that does not fit and, when all fit and reading ends in an error, the
part of a line read before the error. -/
def tokensFrom (failure : Option ReadError) : List String → List String
  | [] =>
    match failure with
    | some ⟨_, some f⟩ => if fits f then [f] else []
    | _ => []
  | l :: rest => if fits l then l :: tokensFrom failure rest else []

/-- The tokens that a fresh scanner delivers from an input, up to the first
`Scan` that returns false. -/
def Stdin.tokens (r : Stdin) : List String := tokensFrom r.failure r.lines

/-- A line of `MaxScanTokenSize` bytes, which does not fit the buffer. -/
def longLine : String := String.mk (List.replicate MaxScanTokenSize 'a')

/-! ## Theorems -/

/-- C2: for an index that `Validate` rejects (exactly the indices below 0 or
not below the length), `editSecret` does nothing but call `Validate` and print
the error: it returns with the memory unchanged, no line scanned and no
`Edit` call. For an index that `Validate` accepts, `0 ≤ index < len`, so the
indexing of the collection finds a record and the command never panics. -/
theorem editSecret_validates_index (env : Collab) (fuel : Nat) (w : World) (stdin : Stdin)
    (index : Int) :
    ((index < 0 ∨ index ≥ (w.secrets.length : Int)) ↔ ∃ e, Validate w.secrets index = some e) ∧
    (∀ e, Validate w.secrets index = some e →
      editSecret env fuel w stdin index =
        ([.Validate index, .Println ["Error validating secret index:", e]], .returned w)) ∧
    (Validate w.secrets index = none →
      0 ≤ index ∧ index < (w.secrets.length : Int) ∧
      (∃ secret, indexSecrets w.secrets index = some secret) ∧
      ∀ w1, (editSecret env fuel w stdin index).2 ≠ .panicked w1) := by
  refine ⟨?_, ?_, ?_⟩
  · unfold Validate
    split <;> simp_all
  · intro e he
    simp [editSecret, he]
  · intro hv
    have hr : 0 ≤ index ∧ index < (w.secrets.length : Int) := by
      unfold Validate at hv
      split at hv
      · simp at hv
      · omega
    have hs : ∃ secret, indexSecrets w.secrets index = some secret := by
      have hlt : index.toNat < w.secrets.length := by omega
      refine ⟨w.secrets[index.toNat], ?_⟩
      unfold indexSecrets
      rw [if_neg (by omega)]
      exact List.getElem?_eq_getElem hlt
    refine ⟨hr.1, hr.2, hs, ?_⟩
    obtain ⟨secret, hsec⟩ := hs
    intro w1
    simp only [editSecret, hv, hsec]
    cases (editLoop env index fuel ⟨secret, NewScanner stdin, w⟩).2 <;> simp [EditRun.outcome]

/-- Witness of C2: index 1 on a collection of one record is rejected, with
input waiting that is never read. -/
theorem editSecret_validates_index_witness :
    editSecret sampleEnv 9 sampleWorld ⟨["1", "x", "7"], none⟩ 1 =
      ([.Validate 1, .Println ["Error validating secret index:", "invalid index"]],
        .returned sampleWorld) :=
  (editSecret_validates_index sampleEnv 9 sampleWorld ⟨["1", "x", "7"], none⟩ 1).2.1
    "invalid index" (by decide)

/-- C7: `Execute` runs exactly the one command chosen by the priority
List > Delete > Add > Edit > Export, and only prints "Invalid Command" when no
flag is set, as with the registered defaults. With List set nothing is
deleted. Index 0 selects a record for Delete and for Edit. The five commands
start with five different events, so a run tells which one was invoked. -/
theorem Execute_single_command (env : Collab) (fuel : Nat) (cf : CmdFlags) (w : World)
    (stdin : Stdin) (kb : Keyboard) :
    (cf.List = true → Execute env fuel cf w stdin kb = listSecrets env w) ∧
    (cf.List = false → cf.Delete ≠ -1 → Execute env fuel cf w stdin kb = deleteSecret env cf w) ∧
    (cf.List = false → cf.Delete = -1 → cf.Add = true →
      Execute env fuel cf w stdin kb = addSecret env w stdin kb) ∧
    (cf.List = false → cf.Delete = -1 → cf.Add = false → cf.Edit ≠ -1 →
      Execute env fuel cf w stdin kb = editSecret env fuel w stdin cf.Edit) ∧
    (cf.List = false → cf.Delete = -1 → cf.Add = false → cf.Edit = -1 → cf.Export = true →
      Execute env fuel cf w stdin kb = exportSecret env w) ∧
    (cf.List = false → cf.Delete = -1 → cf.Add = false → cf.Edit = -1 → cf.Export = false →
      Execute env fuel cf w stdin kb =
        ([.Println ["Invalid Command. Use --help to see available commands."]], .returned w)) ∧
    Execute env fuel RegisterFlags w stdin kb =
      ([.Println ["Invalid Command. Use --help to see available commands."]], .returned w) ∧
    (cf.List = true → ∀ i, Event.Delete i ∉ (Execute env fuel cf w stdin kb).1) ∧
    Execute env fuel { RegisterFlags with Delete := 0 } w stdin kb =
      deleteSecret env { RegisterFlags with Delete := 0 } w ∧
    Execute env fuel { RegisterFlags with Edit := 0 } w stdin kb = editSecret env fuel w stdin 0 ∧
    ((listSecrets env w).1.head? = some .ListSecrets ∧
      (deleteSecret env cf w).1.head? = some (.Delete cf.Delete) ∧
      (addSecret env w stdin kb).1.head? = some (.Println ["Adding a new secret..."]) ∧
      (editSecret env fuel w stdin cf.Edit).1.head? = some (.Validate cf.Edit) ∧
      (exportSecret env w).1.head? = some .Export) := by
  refine ⟨?_, ?_, ?_, ?_, ?_, ?_, ?_, ?_, ?_, ?_, ?_, ?_, ?_, ?_, ?_⟩
  · intro h; simp [Execute, h]
  · intro h1 h2; simp [Execute, h1, h2]
  · intro h1 h2 h3; simp [Execute, h1, h2, h3]
  · intro h1 h2 h3 h4; simp [Execute, h1, h2, h3, h4]
  · intro h1 h2 h3 h4 h5; simp [Execute, h1, h2, h3, h4, h5]
  · intro h1 h2 h3 h4 h5; simp [Execute, h1, h2, h3, h4, h5]
  · simp [Execute, RegisterFlags]
  · intro h i
    simp only [Execute, h, if_true, listSecrets]
    split <;> simp
  · simp [Execute, RegisterFlags]
  · simp [Execute, RegisterFlags]
  · unfold listSecrets; split <;> rfl
  · unfold deleteSecret; split <;> rfl
  · unfold addSecret
    split
    · rfl
    · rfl
    · rfl
    · dsimp only
      split
      · rfl
      · split <;> rfl
  · unfold editSecret
    split
    · rfl
    · split <;> rfl
  · unfold exportSecret; split <;> rfl

/-- Witness of C7: with List set and Delete = 0 the run is that of
`listSecrets`. -/
theorem Execute_single_command_witness :
    Execute sampleEnv 0 ⟨false, true, 0, -1, false⟩ sampleWorld ⟨[], none⟩ ⟨none, []⟩ =
      listSecrets sampleEnv sampleWorld :=
  (Execute_single_command sampleEnv 0 ⟨false, true, 0, -1, false⟩ sampleWorld ⟨[], none⟩
    ⟨none, []⟩).1 rfl

lemma sliceTo_pred (p : Bytes) (h : p.length > 0) :
    sliceTo p ((p.length : Int) - 1) = some p.dropLast := by
  unfold sliceTo
  rw [if_pos (by omega)]
  have : ((p.length : Int) - 1).toNat = p.length - 1 := by omega
  rw [this, List.dropLast_eq_take]

lemma getPasswordBody_backspace (env : Collab) (ch : Int) (p : Bytes) (w : World) :
    ∃ ev, getPasswordBody env ⟨ch, KeyBackspace, none⟩ p w = (ev, .next p.dropLast w) := by
  unfold getPasswordBody
  simp only [show KeyBackspace ≠ KeyEnter by decide, if_false, if_true]
  by_cases h : p.length > 0
  · rw [if_pos h, sliceTo_pred p h]
    exact ⟨_, rfl⟩
  · rw [if_neg h]
    have : p = [] := by
      cases p with
      | nil => rfl
      | cons a l => simp at h
    subst this
    exact ⟨_, rfl⟩

lemma getPasswordBody_char (env : Collab) (c : Int) (key : Nat) (p : Bytes) (w : World)
    (hc : c ≠ 0) (h1 : key ≠ KeyEnter) (h2 : key ≠ KeyBackspace) (h3 : key ≠ KeyTab) :
    getPasswordBody env ⟨c, key, none⟩ p w =
      ([.GetKey, .PrintBytes (encodeRune c)], .next (p ++ encodeRune c) w) := by
  unfold getPasswordBody
  simp [h1, h2, h3, hc]

lemma encodeRune_ascii (c : Int) (h0 : 0 < c) (h1 : c ≤ 0x7F) : encodeRune c = [c.toNat] := by
  unfold encodeRune
  rw [if_neg (by omega)]
  simp only
  rw [if_pos (by omega)]

lemma encodeRune_long (c : Int) (h : c < 0 ∨ 0x7F < c) : 2 ≤ (encodeRune c).length := by
  unfold encodeRune
  split
  · simp
  · simp only
    split
    · omega
    · split
      · simp
      · split <;> simp
lemma getPasswordBody_enter (env : Collab) (ch : Int) (p : Bytes) (w : World) :
    getPasswordBody env ⟨ch, KeyEnter, none⟩ p w = ([.GetKey], .done p none w) := by
  simp [getPasswordBody]

lemma encodeRune_length_one (c : Int) : (encodeRune c).length = 1 ↔ (0 ≤ c ∧ c ≤ 0x7F) := by
  constructor
  · intro h
    by_contra hn
    have := encodeRune_long c (by omega)
    omega
  · intro h
    unfold encodeRune
    rw [if_neg (by omega)]
    simp only
    rw [if_pos (by omega)]
    rfl

/-- C9: a Backspace pass never slices out of range: it goes on with the
buffer less its final byte (the empty buffer stays empty). Typing a non-zero
character `c` and then Backspace leaves `p` followed by all but the last byte
of the encoding of `c`: this is `p` when `c` encodes to one byte (exactly the
ASCII characters), and is not `p` when the encoding is longer. -/
theorem getPassword_backspace_removes_last_byte (env : Collab) (w : World) (p : Bytes)
    (ch : Int) :
    (∃ ev, getPasswordBody env ⟨ch, KeyBackspace, none⟩ p w = (ev, .next p.dropLast w)) ∧
    (∀ ev w1, getPasswordBody env ⟨ch, KeyBackspace, none⟩ p w ≠ (ev, .panic w1)) ∧
    getPasswordBody env ⟨ch, KeyBackspace, none⟩ [] w = ([.GetKey], .next [] w) ∧
    (∀ q b, p = q ++ [b] →
      ∃ ev, getPasswordBody env ⟨ch, KeyBackspace, none⟩ p w = (ev, .next q w)) ∧
    (∀ c key, c ≠ 0 → key ≠ KeyEnter → key ≠ KeyBackspace → key ≠ KeyTab →
      (getPasswordLoop env
          [⟨c, key, none⟩, ⟨ch, KeyBackspace, none⟩, ⟨ch, KeyEnter, none⟩] p w).2.2 =
        .returned (p ++ (encodeRune c).dropLast) none ∧
      ((encodeRune c).length = 1 ↔ (0 < c ∧ c ≤ 0x7F)) ∧
      ((encodeRune c).length = 1 → p ++ (encodeRune c).dropLast = p) ∧
      ((encodeRune c).length ≠ 1 →
        2 ≤ (encodeRune c).length ∧ (encodeRune c).dropLast ≠ [] ∧
        p ++ (encodeRune c).dropLast ≠ p)) := by
  obtain ⟨ev, hev⟩ := getPasswordBody_backspace env ch p w
  refine ⟨⟨ev, hev⟩, ?_, ?_, ?_, ?_⟩
  · intro ev1 w1 h
    rw [hev] at h
    simp at h
  · simp [getPasswordBody, KeyBackspace, KeyEnter]
  · intro q b hq
    refine ⟨ev, ?_⟩
    rw [hev, hq, List.dropLast_concat]
  · intro c key hc h1 h2 h3
    obtain ⟨ev2, hev2⟩ := getPasswordBody_backspace env ch (p ++ encodeRune c) w
    have hlen : (encodeRune c).length = 1 ↔ (0 < c ∧ c ≤ 0x7F) := by
      rw [encodeRune_length_one]; omega
    have hne : encodeRune c ≠ [] := by
      intro h0
      by_cases h : 0 < c ∧ c ≤ 0x7F
      · have := hlen.2 h
        rw [h0] at this
        simp at this
      · have := encodeRune_long c (by omega)
        rw [h0] at this
        simp at this
    refine ⟨?_, hlen, ?_, ?_⟩
    · simp only [getPasswordLoop, getPasswordBody_char env c key p w hc h1 h2 h3, hev2,
        getPasswordBody_enter]
      rw [List.dropLast_append_of_ne_nil _ hne]
    · intro h1
      obtain ⟨b, hb⟩ := List.length_eq_one.mp h1
      rw [hb]
      simp
    · intro hn
      have h2 : 2 ≤ (encodeRune c).length := by
        have : 0 < (encodeRune c).length := List.length_pos.mpr hne
        omega
      have h3 : (encodeRune c).dropLast ≠ [] := by
        intro h0
        have := congrArg List.length h0
        simp at this
        omega
      refine ⟨h2, h3, ?_⟩
      intro h0
      exact h3 (List.append_right_eq_self.mp h0)

/-- Witness of C9: after "a", typing U+00E9 (two bytes) and Backspace leaves
"a" followed by the first byte of the encoding. -/
theorem getPassword_backspace_removes_last_byte_witness :
    (getPasswordLoop sampleEnv
        [⟨233, 0, none⟩, ⟨0, KeyBackspace, none⟩, ⟨0, KeyEnter, none⟩] [97] sampleWorld).2.2 =
      .returned ([97] ++ (encodeRune 233).dropLast) none :=
  ((getPassword_backspace_removes_last_byte sampleEnv sampleWorld [97] 0).2.2.2.2 233 0
    (by decide) (by decide) (by decide) (by decide)).1

lemma getPasswordBody_next (env : Collab) (k : KeyEvent) (p : Bytes) (w : World)
    (he : k.err = none) (hne : k.isEnter = false) :
    ∃ ev p1, getPasswordBody env k p w =
        (ev, .next p1 { w with suggested := w.suggested + (if k.isTab then 1 else 0) }) ∧
      ev.countP Event.isSuggest = (if k.isTab then 1 else 0) ∧
      (k.isTab = true → p1 = env.Suggest w.suggested) ∧
      (k.isTyped = true → p1 = p ++ encodeRune k.char) := by
  obtain ⟨c, key, err⟩ := k
  simp only at he
  subst he
  simp only [KeyEvent.isEnter, decide_eq_false_iff_not] at hne
  by_cases hb : key = KeyBackspace
  · subst hb
    obtain ⟨ev, hev⟩ := getPasswordBody_backspace env c p w
    refine ⟨ev, p.dropLast, ?_, ?_, ?_, ?_⟩
    · rw [hev]; simp [KeyEvent.isTab, KeyBackspace, KeyTab]
    · unfold getPasswordBody at hev
      simp only [show KeyBackspace ≠ KeyEnter by decide, if_false, if_true] at hev
      split at hev
      · split at hev
        · simp at hev
        · simp only [Prod.mk.injEq] at hev
          rw [← hev.1]
          simp [KeyEvent.isTab, KeyBackspace, KeyTab, Event.isSuggest]
      · simp only [Prod.mk.injEq] at hev
        rw [← hev.1]
        simp [KeyEvent.isTab, KeyBackspace, KeyTab, Event.isSuggest]
    · simp [KeyEvent.isTab, KeyBackspace, KeyTab]
    · simp [KeyEvent.isTyped]
  · by_cases ht : key = KeyTab
    · subst ht
      refine ⟨[.GetKey, .Suggest (env.Suggest w.suggested),
          .Printf "\rEnter Password (press Tab for a suggested password): %s"
            (env.Suggest w.suggested), .Print "\x1b[K"], env.Suggest w.suggested, ?_, ?_, ?_, ?_⟩
      · simp [getPasswordBody, KeyEvent.isTab, KeyTab, KeyEnter, KeyBackspace]
      · simp [KeyEvent.isTab, Event.isSuggest, List.countP_cons]
      · intro _; rfl
      · simp [KeyEvent.isTyped]
    · by_cases hc : c = 0
      · subst hc
        refine ⟨[.GetKey], p, ?_, ?_, ?_, ?_⟩
        · simp [getPasswordBody, hne, hb, ht, KeyEvent.isTab]
        · simp [KeyEvent.isTab, ht, Event.isSuggest]
        · simp [KeyEvent.isTab, ht]
        · simp [KeyEvent.isTyped]
      · refine ⟨[.GetKey, .PrintBytes (encodeRune c)], p ++ encodeRune c, ?_, ?_, ?_, ?_⟩
        · rw [getPasswordBody_char env c key p w hc hne hb ht]
          simp [KeyEvent.isTab, ht]
        · simp [KeyEvent.isTab, ht, Event.isSuggest, List.countP_cons]
        · simp [KeyEvent.isTab, ht]
        · intro _; rfl
lemma getPasswordLoop_cons_next (env : Collab) {k : KeyEvent} (ks : List KeyEvent) {p p1 : Bytes}
    {w w1 : World} {ev : List Event} (h : getPasswordBody env k p w = (ev, .next p1 w1)) :
    getPasswordLoop env (k :: ks) p w =
      (ev ++ (getPasswordLoop env ks p1 w1).1, (getPasswordLoop env ks p1 w1).2) := by
  simp only [getPasswordLoop, h]

lemma getPasswordLoop_count (env : Collab) (keys : List KeyEvent) :
    ∀ (p : Bytes) (w : World), (∀ k ∈ keys, k.err = none) →
      (getPasswordLoop env keys p w).1.countP Event.isSuggest =
        (keys.takeWhile (fun k => !k.isEnter)).countP KeyEvent.isTab ∧
      (getPasswordLoop env keys p w).2.1.suggested =
        w.suggested + (keys.takeWhile (fun k => !k.isEnter)).countP KeyEvent.isTab := by
  induction keys with
  | nil => intro p w _; simp [getPasswordLoop]
  | cons k ks ih =>
    intro p w hk
    have he : k.err = none := hk k (List.mem_cons_self _ _)
    have hks : ∀ k ∈ ks, k.err = none := fun x hx => hk x (List.mem_cons_of_mem _ hx)
    by_cases hen : k.isEnter = true
    · have hkey : k.key = KeyEnter := by simpa [KeyEvent.isEnter] using hen
      obtain ⟨c, key, err⟩ := k
      simp only at he hkey
      subst he hkey
      simp [getPasswordLoop, getPasswordBody_enter, hen, Event.isSuggest]
    · have hen2 : k.isEnter = false := by simpa using hen
      obtain ⟨ev, p1, hb, hc, -, -⟩ := getPasswordBody_next env k p w he hen2
      obtain ⟨ih1, ih2⟩ := ih p1 { w with suggested := w.suggested + (if k.isTab then 1 else 0) } hks
      simp only [getPasswordLoop, hb, List.takeWhile_cons, hen2, Bool.not_false, if_true,
        List.countP_append, hc, ih1, ih2, List.countP_cons]
      constructor
      · split <;> omega
      · split <;> omega

lemma getPasswordLoop_prefix (env : Collab) (pre : List KeyEvent) :
    ∀ (p : Bytes) (w : World), (∀ k ∈ pre, k.err = none ∧ k.isEnter = false) →
      ∃ p1, ∀ rest, (getPasswordLoop env (pre ++ rest) p w).2 =
        (getPasswordLoop env rest p1
          { w with suggested := w.suggested + pre.countP KeyEvent.isTab }).2 := by
  induction pre with
  | nil => intro p w _; exact ⟨p, fun rest => by simp⟩
  | cons k ks ih =>
    intro p w hk
    obtain ⟨he, hen⟩ := hk k (List.mem_cons_self _ _)
    have hks : ∀ k ∈ ks, k.err = none ∧ k.isEnter = false :=
      fun x hx => hk x (List.mem_cons_of_mem _ hx)
    obtain ⟨ev, p1, hb, -, -, -⟩ := getPasswordBody_next env k p w he hen
    obtain ⟨p2, hp2⟩ := ih p1 { w with suggested := w.suggested + (if k.isTab then 1 else 0) } hks
    refine ⟨p2, fun rest => ?_⟩
    rw [List.cons_append, getPasswordLoop_cons_next env (ks ++ rest) hb]
    simp only [hp2 rest, List.countP_cons]
    have : w.suggested + (if k.isTab = true then 1 else 0) + List.countP KeyEvent.isTab ks =
        w.suggested + (List.countP KeyEvent.isTab ks + if k.isTab = true then 1 else 0) := by
      omega
    rw [this]

lemma getPasswordLoop_typed (env : Collab) (typed : List KeyEvent) :
    ∀ (p : Bytes) (w : World) (rest : List KeyEvent), (∀ k ∈ typed, k.isTyped = true) →
      (getPasswordLoop env (typed ++ rest) p w).2 =
        (getPasswordLoop env rest (typed.foldl (fun acc k => acc ++ encodeRune k.char) p) w).2 := by
  induction typed with
  | nil => intro p w rest _; simp
  | cons k ks ih =>
    intro p w rest hk
    have hty := hk k (List.mem_cons_self _ _)
    have hks : ∀ k ∈ ks, k.isTyped = true := fun x hx => hk x (List.mem_cons_of_mem _ hx)
    obtain ⟨c, key, err⟩ := k
    simp only [KeyEvent.isTyped, Bool.and_eq_true, decide_eq_true_eq, ne_eq,
      decide_not, Bool.not_eq_true', decide_eq_false_iff_not] at hty
    obtain ⟨⟨⟨⟨he, hc⟩, h1⟩, h2⟩, h3⟩ := hty
    subst he
    rw [List.cons_append,
      getPasswordLoop_cons_next env (ks ++ rest) (getPasswordBody_char env c key p w hc h1 h2 h3)]
    simp only [List.foldl_cons, ih _ w rest hks]
lemma getPassword_eq (env : Collab) (w : World) (keys : List KeyEvent) :
    (getPassword env w ⟨none, keys⟩).1.countP Event.isSuggest =
      (getPasswordLoop env keys [] w).1.countP Event.isSuggest ∧
    (getPassword env w ⟨none, keys⟩).2 = (getPasswordLoop env keys [] w).2 := by
  unfold getPassword
  simp only
  rcases h : getPasswordLoop env keys [] w with ⟨ev, w1, r⟩
  cases r <;> simp [List.countP_append, List.countP_cons, Event.isSuggest]

/-- C8: in `getPassword`, a Tab pass replaces the whole buffer by the string
that its one call of `Suggest` returns; over keys read without error `Suggest`
is called once for each Tab read before Enter and never otherwise; a Tab
followed by typed characters and Enter returns the suggestion followed by the
typed characters, hence exactly the suggestion when Enter follows the Tab. -/
theorem getPassword_tab_suggests (env : Collab) (w : World) :
    (∀ ch p, getPasswordBody env ⟨ch, KeyTab, none⟩ p w =
      ([.GetKey, .Suggest (env.Suggest w.suggested),
          .Printf "\rEnter Password (press Tab for a suggested password): %s"
            (env.Suggest w.suggested), .Print "\x1b[K"],
        .next (env.Suggest w.suggested) { w with suggested := w.suggested + 1 })) ∧
    (∀ keys, (∀ k ∈ keys, k.err = none) →
      (getPassword env w ⟨none, keys⟩).1.countP Event.isSuggest =
        (keys.takeWhile (fun k => !k.isEnter)).countP KeyEvent.isTab ∧
      (getPassword env w ⟨none, keys⟩).2.1.suggested =
        w.suggested + (keys.takeWhile (fun k => !k.isEnter)).countP KeyEvent.isTab) ∧
    (∀ pre tab typed enter rest, (∀ k ∈ pre, k.err = none ∧ k.isEnter = false) →
      tab.err = none → tab.isTab = true → (∀ k ∈ typed, k.isTyped = true) →
      enter.err = none → enter.isEnter = true →
      (getPassword env w ⟨none, pre ++ tab :: (typed ++ enter :: rest)⟩).2.2 =
        .returned
          (typed.foldl (fun acc k => acc ++ encodeRune k.char)
            (env.Suggest (w.suggested + pre.countP KeyEvent.isTab))) none) ∧
    (∀ pre tab enter rest, (∀ k ∈ pre, k.err = none ∧ k.isEnter = false) →
      tab.err = none → tab.isTab = true → enter.err = none → enter.isEnter = true →
      (getPassword env w ⟨none, pre ++ tab :: enter :: rest⟩).2.2 =
        .returned (env.Suggest (w.suggested + pre.countP KeyEvent.isTab)) none) := by
  have main : ∀ pre tab typed enter rest, (∀ k ∈ pre, k.err = none ∧ k.isEnter = false) →
      tab.err = none → tab.isTab = true → (∀ k ∈ typed, k.isTyped = true) →
      enter.err = none → enter.isEnter = true →
      (getPassword env w ⟨none, pre ++ tab :: (typed ++ enter :: rest)⟩).2.2 =
        .returned
          (typed.foldl (fun acc k => acc ++ encodeRune k.char)
            (env.Suggest (w.suggested + pre.countP KeyEvent.isTab))) none := by
    intro pre tab typed enter rest hpre hte htt hty hee het
    rw [(getPassword_eq env w _).2]
    obtain ⟨p1, hp1⟩ := getPasswordLoop_prefix env pre [] w hpre
    rw [hp1]
    have hten : tab.isEnter = false := by
      simp only [KeyEvent.isTab, decide_eq_true_eq] at htt
      simp [KeyEvent.isEnter, htt, KeyTab, KeyEnter]
    obtain ⟨ev, p2, hb, -, hs, -⟩ := getPasswordBody_next env tab p1
      { w with suggested := w.suggested + pre.countP KeyEvent.isTab } hte hten
    rw [getPasswordLoop_cons_next env _ hb]
    simp only
    rw [getPasswordLoop_typed env typed _ _ _ hty, hs htt]
    obtain ⟨c, key, err⟩ := enter
    simp only at hee
    simp only [KeyEvent.isEnter, decide_eq_true_eq] at het
    subst hee het
    simp [getPasswordLoop, getPasswordBody_enter]
  refine ⟨?_, ?_, main, ?_⟩
  · intro ch p
    simp [getPasswordBody, KeyTab, KeyEnter, KeyBackspace]
  · intro keys hk
    obtain ⟨h1, h2⟩ := getPasswordLoop_count env keys [] w hk
    rw [(getPassword_eq env w keys).1, (getPassword_eq env w keys).2]
    exact ⟨h1, h2⟩
  · intro pre tab enter rest hpre hte htt hee het
    have := main pre tab [] enter rest hpre hte htt (by simp) hee het
    simpa using this

/-- Witness of C8: "a", Tab, "b", Enter returns the suggestion followed by "b". -/
theorem getPassword_tab_suggests_witness :
    (getPassword sampleEnv sampleWorld
        ⟨none, [⟨97, 0, none⟩, ⟨0, KeyTab, none⟩, ⟨98, 0, none⟩, ⟨0, KeyEnter, none⟩]⟩).2.2 =
      .returned (sampleEnv.Suggest 0 ++ [98]) none :=
  (getPassword_tab_suggests sampleEnv sampleWorld).2.2.1 [⟨97, 0, none⟩] ⟨0, KeyTab, none⟩
    [⟨98, 0, none⟩] ⟨0, KeyEnter, none⟩ [] (by decide) rfl (by decide) (by decide) rfl (by decide)

/-! ### The menu loop of `editSecret` -/

lemma isField_cases {c : String} (h : isField c = true) :
    c = "1" ∨ c = "2" ∨ c = "3" ∨ c = "4" ∨ c = "5" ∨ c = "6" := by
  simpa [isField, or_assoc] using h

lemma isField_ne_seven {c : String} (h : isField c = true) : c ≠ "7" := by
  rcases isField_cases h with h | h | h | h | h | h <;> subst h <;> decide

lemma not_long_of_fits {l : String} (h : fits l = true) : ¬ MaxScanTokenSize ≤ byteLength l := by
  simp only [fits, decide_eq_true_eq] at h
  omega

lemma long_of_not_fits {l : String} (h : fits l = false) : MaxScanTokenSize ≤ byteLength l := by
  simp only [fits, decide_eq_false_iff_not] at h
  omega

lemma fits_seven : fits "7" = true := by decide

lemma scan_cons_fits (fl : Option ReadError) (l tok : String) (rest : List String)
    (h : fits l = true) :
    Scanner.Scan ⟨⟨l :: rest, fl⟩, tok, none⟩ = (true, ⟨⟨rest, fl⟩, l, none⟩) := by
  simp [Scanner.Scan, not_long_of_fits h]

lemma scan_cons_long (fl : Option ReadError) (l tok : String) (rest : List String)
    (h : fits l = false) :
    Scanner.Scan ⟨⟨l :: rest, fl⟩, tok, none⟩ =
      (false, ⟨⟨[], some ⟨ErrTooLong, some (takeBytes MaxScanTokenSize l)⟩⟩, "",
        some ErrTooLong⟩) := by
  simp [Scanner.Scan, long_of_not_fits h, Scanner.failTooLong, setErr]

lemma scan_nil_eof (tok : String) (err : Option Err) :
    Scanner.Scan ⟨⟨[], none⟩, tok, err⟩ = (false, ⟨⟨[], none⟩, "", err⟩) := by
  simp [Scanner.Scan]

lemma scan_nil_err (e : Err) (tok : String) (err : Option Err) :
    Scanner.Scan ⟨⟨[], some ⟨e, none⟩⟩, tok, err⟩ =
      (false, ⟨⟨[], some ⟨e, none⟩⟩, "", setErr err e⟩) := by
  simp [Scanner.Scan]

lemma scan_nil_fragment_fits (e : Err) (f tok : String) (h : fits f = true) :
    Scanner.Scan ⟨⟨[], some ⟨e, some f⟩⟩, tok, none⟩ =
      (true, ⟨⟨[], some ⟨e, none⟩⟩, f, some e⟩) := by
  simp [Scanner.Scan, not_long_of_fits h, setErr]

lemma scan_nil_fragment_long (e : Err) (f tok : String) (h : fits f = false) :
    Scanner.Scan ⟨⟨[], some ⟨e, some f⟩⟩, tok, none⟩ =
      (false, ⟨⟨[], some ⟨ErrTooLong, some (takeBytes MaxScanTokenSize f)⟩⟩, "",
        some ErrTooLong⟩) := by
  simp [Scanner.Scan, long_of_not_fits h, Scanner.failTooLong, setErr]

/-- Whatever a scanner holds, `Scan` leaves an error recorded when it found
one recorded. -/
lemma scan_err_sticky (s : Scanner) (x : Err) (h : s.err = some x) :
    (s.Scan).2.err = some x := by
  unfold Scanner.Scan
  split
  · simp [h]
  · split
    · simp [h]
    · simp [h, setErr]
    · simp [h, setErr]

lemma menuPrints_noEdit : ∀ e ∈ menuPrints, e.isEdit = false := by
  intro e he
  simp [menuPrints] at he
  rcases he with he | he | he | he | he | he | he | he | he <;> subst he <;> rfl

lemma noEdit_append {a b : List Event} (ha : ∀ e ∈ a, e.isEdit = false)
    (hb : ∀ e ∈ b, e.isEdit = false) : ∀ e ∈ a ++ b, e.isEdit = false := by
  intro e he
  rcases List.mem_append.mp he with he | he
  · exact ha e he
  · exact hb e he

lemma not_mem_of_noEdit {ev : List Event} (h : ∀ e ∈ ev, e.isEdit = false) (w1 : World) (i : Int)
    (r : Secret) : Event.Edit w1 i r ∉ ev := by
  intro hm
  have := h _ hm
  simp [Event.isEdit] at this

/-- The loop body from a state whose scanner is `sc` after the menu scan
failed: the pass ends in the error check. -/
lemma editBody_scan_false (env : Collab) (index : Int) (st : EditState) {sc : Scanner}
    (h : st.scanner.Scan = (false, sc)) :
    editBody env index st =
      checkErr (menuPrints ++ [.Scan false sc.Text]) { st with scanner := sc } := by
  simp [editBody, h]

lemma checkErr_some (ev : List Event) (st : EditState) (e : Err) (h : st.scanner.err = some e) :
    checkErr ev st = (ev ++ [.Println ["Error reading input:", e]], .done st.w) := by
  simp [checkErr, Scanner.Err, h]

lemma checkErr_none (ev : List Event) (st : EditState) (h : st.scanner.err = none) :
    checkErr ev st = (ev, .next st) := by
  simp [checkErr, Scanner.Err, h]

lemma checkErr_noEdit {ev : List Event} (st : EditState) (h : ∀ e ∈ ev, e.isEdit = false) :
    ∀ e ∈ (checkErr ev st).1, e.isEdit = false := by
  unfold checkErr
  split
  · refine noEdit_append h ?_
    intro e he
    simp at he
    subst he
    rfl
  · exact h

lemma editBody_stop_at_menu (env : Collab) (index : Int) (st : EditState) {sc : Scanner}
    {e : Err} (h : st.scanner.Scan = (false, sc)) (he : sc.err = some e) :
    ∃ ev, editBody env index st = (ev, .done st.w) ∧ ∀ e ∈ ev, e.isEdit = false := by
  refine ⟨menuPrints ++ [.Scan false sc.Text] ++ [.Println ["Error reading input:", e]], ?_, ?_⟩
  · rw [editBody_scan_false env index st h, checkErr_some _ _ e (by simpa using he)]
  · refine noEdit_append (noEdit_append menuPrints_noEdit ?_) ?_ <;>
      (intro x hx; simp at hx; subst hx; rfl)

lemma editBody_field (env : Collab) (index : Int) (st : EditState) {sc1 sc2 : Scanner}
    {ok : Bool} (h1 : st.scanner.Scan = (true, sc1)) (hf : isField sc1.token = true)
    (h2 : sc1.Scan = (ok, sc2)) :
    ∃ ev, editBody env index st =
        checkErr ev { st with secret := setField env sc1.token sc2.token st.secret,
                              scanner := sc2 } ∧
      ∀ e ∈ ev, e.isEdit = false := by
  rcases isField_cases hf with h | h | h | h | h | h <;>
    simp only [editBody, h1, h2, h, Scanner.Text, setField, menuPrints, if_true,
      show ("2" : String) ≠ "1" by decide, show ("3" : String) ≠ "1" by decide,
      show ("3" : String) ≠ "2" by decide, show ("4" : String) ≠ "1" by decide,
      show ("4" : String) ≠ "2" by decide, show ("4" : String) ≠ "3" by decide,
      show ("5" : String) ≠ "1" by decide, show ("5" : String) ≠ "2" by decide,
      show ("5" : String) ≠ "3" by decide, show ("5" : String) ≠ "4" by decide,
      show ("6" : String) ≠ "1" by decide, show ("6" : String) ≠ "2" by decide,
      show ("6" : String) ≠ "3" by decide, show ("6" : String) ≠ "4" by decide,
      show ("6" : String) ≠ "5" by decide, if_false] <;>
    (refine ⟨_, rfl, ?_⟩; simp [Event.isEdit])

lemma editBody_other_gen (env : Collab) (index : Int) (st : EditState) {sc1 : Scanner}
    (h1 : st.scanner.Scan = (true, sc1)) (hf : isField sc1.token = false)
    (h7 : sc1.token ≠ "7") :
    editBody env index st =
      checkErr (menuPrints ++ [.Scan true sc1.token, .Println ["Invalid choice. Please try again."]])
        { st with scanner := sc1 } := by
  simp only [isField, Bool.or_eq_false_iff, decide_eq_false_iff_not] at hf
  obtain ⟨⟨⟨⟨⟨f1, f2⟩, f3⟩, f4⟩, f5⟩, f6⟩ := hf
  simp [editBody, h1, Scanner.Text, f1, f2, f3, f4, f5, f6, h7]

lemma editBody_save_gen (env : Collab) (index : Int) (st : EditState) {sc1 : Scanner}
    (h1 : st.scanner.Scan = (true, sc1)) (h7 : sc1.token = "7") :
    editBody env index st =
      (menuPrints ++ [.Scan true "7", .Edit (saveWorld env st.w) index (saveSecret st.w st.secret),
          .Println (saveMessage (env.Edit (saveWorld env st.w) index
            (saveSecret st.w st.secret)).2)],
        .done (env.Edit (saveWorld env st.w) index (saveSecret st.w st.secret)).1) := by
  simp only [editBody, h1, Scanner.Text, h7, saveWorld, saveSecret]
  simp only [if_true, show ("7" : String) ≠ "1" by decide, show ("7" : String) ≠ "2" by decide,
    show ("7" : String) ≠ "3" by decide, show ("7" : String) ≠ "4" by decide,
    show ("7" : String) ≠ "5" by decide, show ("7" : String) ≠ "6" by decide, if_false]
  split
  · next w3 e h => rw [h]; simp [saveMessage]
  · next w3 h => rw [h]; simp [saveMessage]

lemma menu_noEdit_other (c : String) :
    ∀ e ∈ menuPrints ++ [Event.Scan true c, .Println ["Invalid choice. Please try again."]],
      e.isEdit = false := by
  refine noEdit_append menuPrints_noEdit ?_
  intro e he
  simp at he
  rcases he with he | he <;> subst he <;> rfl

lemma menu_noEdit_nil : ∀ e ∈ menuPrints ++ [Event.Scan false ""], e.isEdit = false := by
  refine noEdit_append menuPrints_noEdit ?_
  intro e he
  simp at he
  subst he
  rfl

/-! Steps of the loop from a state with no error recorded. -/

lemma editBody_nil_eof (env : Collab) (index : Int) (w : World) (secret : Secret) (tok : String) :
    editBody env index (loopState w none secret [] tok) =
      (menuPrints ++ [.Scan false ""], .next (loopState w none secret [] "")) := by
  rw [editBody_scan_false env index _ (scan_nil_eof tok none)]
  rfl

lemma editBody_other (env : Collab) (index : Int) (w : World) (failure : Option ReadError)
    (secret : Secret) (tok c : String) (rest : List String) (hfit : fits c = true)
    (hf : isField c = false) (h7 : c ≠ "7") :
    editBody env index (loopState w failure secret (c :: rest) tok) =
      (menuPrints ++ [.Scan true c, .Println ["Invalid choice. Please try again."]],
        .next (loopState w failure secret rest c)) := by
  rw [editBody_other_gen env index _ (scan_cons_fits failure c tok rest hfit) hf h7]
  rfl

lemma editBody_field_value (env : Collab) (index : Int) (w : World)
    (failure : Option ReadError) (secret : Secret) (tok c v : String) (rest : List String)
    (hfc : fits c = true) (hfv : fits v = true) (hf : isField c = true) :
    ∃ ev, editBody env index (loopState w failure secret (c :: v :: rest) tok) =
        (ev, .next (loopState w failure (setField env c v secret) rest v)) ∧
      ∀ e ∈ ev, e.isEdit = false := by
  obtain ⟨ev, h, hev⟩ := editBody_field env index (loopState w failure secret (c :: v :: rest) tok)
    (scan_cons_fits failure c tok (v :: rest) hfc) hf (scan_cons_fits failure v c rest hfv)
  exact ⟨ev, by rw [h]; rfl, hev⟩

lemma editBody_field_eof (env : Collab) (index : Int) (w : World) (secret : Secret)
    (tok c : String) (hfc : fits c = true) (hf : isField c = true) :
    ∃ ev, editBody env index (loopState w none secret [c] tok) =
        (ev, .next (loopState w none (setField env c "" secret) [] "")) ∧
      ∀ e ∈ ev, e.isEdit = false := by
  obtain ⟨ev, h, hev⟩ := editBody_field env index (loopState w none secret [c] tok)
    (scan_cons_fits none c tok [] hfc) hf (scan_nil_eof c none)
  exact ⟨ev, by rw [h]; rfl, hev⟩

lemma editBody_save (env : Collab) (index : Int) (w : World) (failure : Option ReadError)
    (secret : Secret) (tok : String) (rest : List String) :
    editBody env index (loopState w failure secret ("7" :: rest) tok) =
      (menuPrints ++ [.Scan true "7", .Edit (saveWorld env w) index (saveSecret w secret),
          .Println (saveMessage (env.Edit (saveWorld env w) index (saveSecret w secret)).2)],
        .done (env.Edit (saveWorld env w) index (saveSecret w secret)).1) :=
  editBody_save_gen env index _ (scan_cons_fits failure "7" tok rest fits_seven) rfl

/-- A pass whose value scan fails or records an error ends the command with
the memory unchanged and no `Edit` call. -/
lemma editBody_field_stop (env : Collab) (index : Int) (st : EditState) {sc1 sc2 : Scanner}
    {ok : Bool} {e : Err} (h1 : st.scanner.Scan = (true, sc1)) (hf : isField sc1.token = true)
    (h2 : sc1.Scan = (ok, sc2)) (he : sc2.err = some e) :
    ∃ ev, editBody env index st = (ev, .done st.w) ∧ ∀ e ∈ ev, e.isEdit = false := by
  obtain ⟨ev, h, hev⟩ := editBody_field env index st h1 hf h2
  refine ⟨_, by rw [h, checkErr_some _ _ e (by simpa using he)], ?_⟩
  refine noEdit_append hev ?_
  intro x hx
  simp at hx
  subst hx
  rfl

lemma menuLines_nil : menuLines [] = [] := rfl

lemma menuLines_seven (rest : List String) : menuLines ("7" :: rest) = ["7"] := by
  simp [menuLines, menuLinesAux]

lemma menuLines_other {c : String} (rest : List String) (hf : isField c = false) (h7 : c ≠ "7") :
    menuLines (c :: rest) = c :: menuLines rest := by
  simp [menuLines, menuLinesAux, hf, h7]

lemma menuLines_field_one {c : String} (hf : isField c = true) : menuLines [c] = [c] := by
  simp [menuLines, menuLinesAux, hf, isField_ne_seven hf]

lemma menuLines_field {c : String} (v : String) (rest : List String) (hf : isField c = true) :
    menuLines (c :: v :: rest) = c :: menuLines rest := by
  simp [menuLines, menuLinesAux, hf, isField_ne_seven hf]

lemma setField_get_ne (env : Collab) {c f : String} (v : String) (s : Secret) (h : f ≠ c) :
    (setField env c v s).get f = s.get f := by
  unfold setField
  split_ifs with h1 h2 h3 h4 h5 h6
  · subst h1; simp [Secret.get, h]
  · subst h2; simp [Secret.get, h]
  · subst h3; simp [Secret.get, h]
  · subst h4; simp [Secret.get, h]
  · subst h5; simp [Secret.get, h]
  · subst h6; simp [Secret.get, h]
  · rfl

lemma setField_CreatedAt (env : Collab) (c v : String) (s : Secret) :
    (setField env c v s).CreatedAt = s.CreatedAt := by
  unfold setField
  split_ifs <;> rfl

lemma setField_UpdatedAt (env : Collab) (c v : String) (s : Secret) :
    (setField env c v s).UpdatedAt = s.UpdatedAt := by
  unfold setField
  split_ifs <;> rfl

lemma editLoop_succ_next (env : Collab) (index : Int) (n : Nat) {st st1 : EditState}
    {ev : List Event} (h : editBody env index st = (ev, .next st1)) :
    editLoop env index (n + 1) st =
      (ev ++ (editLoop env index n st1).1, (editLoop env index n st1).2) := by
  simp only [editLoop, h]

lemma editLoop_succ_done (env : Collab) (index : Int) (n : Nat) {st : EditState} {w1 : World}
    {ev : List Event} (h : editBody env index st = (ev, .done w1)) :
    editLoop env index (n + 1) st = (ev, .returned w1) := by
  simp only [editLoop, h]

lemma tokensFrom_cons_fits (fl : Option ReadError) {l : String} (rest : List String)
    (h : fits l = true) : tokensFrom fl (l :: rest) = l :: tokensFrom fl rest := by
  simp [tokensFrom, h]

lemma tokensFrom_cons_long (fl : Option ReadError) {l : String} (rest : List String)
    (h : fits l = false) : tokensFrom fl (l :: rest) = [] := by
  simp [tokensFrom, h]

lemma menuLines_single {c : String} (h7 : c ≠ "7") : menuLines [c] = [c] := by
  simp [menuLines, menuLinesAux, h7]

/-- One pass of the menu loop from a state with no error recorded is one of
three things. It ends the command with the memory unchanged and no `Edit`
call: then no "7" is among the menu lines of the tokens left, and the input
fails or has a line that does not fit. Or it is the save step: then "7" is
the next token. Or the loop goes on: either the input is exhausted and the
state with an empty token repeats, or a menu line other than "7" (with its
value, for a field) is consumed and only that field of the working copy
changes. -/
lemma editBody_step (env : Collab) (index : Int) (w : World) (failure : Option ReadError)
    (secret : Secret) (lines : List String) (tok : String) :
    (∃ ev, editBody env index (loopState w failure secret lines tok) = (ev, .done w) ∧
        (∀ e ∈ ev, e.isEdit = false) ∧ "7" ∉ menuLines (tokensFrom failure lines) ∧
        (failure ≠ none ∨ ∃ l ∈ lines, fits l = false)) ∨
    (menuLines (tokensFrom failure lines) = ["7"] ∧
      editBody env index (loopState w failure secret lines tok) =
        (menuPrints ++ [.Scan true "7", .Edit (saveWorld env w) index (saveSecret w secret),
            .Println (saveMessage (env.Edit (saveWorld env w) index (saveSecret w secret)).2)],
          .done (env.Edit (saveWorld env w) index (saveSecret w secret)).1)) ∨
    (∃ ev secret1 lines1 tok1,
      editBody env index (loopState w failure secret lines tok) =
        (ev, .next (loopState w failure secret1 lines1 tok1)) ∧
      (∀ e ∈ ev, e.isEdit = false) ∧ secret1.CreatedAt = secret.CreatedAt ∧
      ((lines = [] ∧ failure = none ∧ lines1 = [] ∧ secret1 = secret ∧ tok1 = "") ∨
        ∃ c pre, c ≠ "7" ∧ pre ≠ [] ∧ lines = pre ++ lines1 ∧
          menuLines (tokensFrom failure lines) = c :: menuLines (tokensFrom failure lines1) ∧
          ∀ f, f ≠ c → secret1.get f = secret.get f)) := by
  cases lines with
  | nil =>
    cases failure with
    | none =>
      refine Or.inr (Or.inr ⟨_, secret, [], "", editBody_nil_eof env index w secret tok,
        menu_noEdit_nil, rfl, Or.inl ⟨rfl, rfl, rfl, rfl, rfl⟩⟩)
    | some fl =>
      obtain ⟨e, frag⟩ := fl
      cases frag with
      | none =>
        obtain ⟨ev, h, hev⟩ := editBody_stop_at_menu env index
          (loopState w (some ⟨e, none⟩) secret [] tok) (scan_nil_err e tok none) (e := e) rfl
        exact Or.inl ⟨ev, h, hev, by simp [tokensFrom, menuLines_nil], Or.inl (by simp)⟩
      | some f =>
        cases hfit : fits f with
        | false =>
          obtain ⟨ev, h, hev⟩ := editBody_stop_at_menu env index
            (loopState w (some ⟨e, some f⟩) secret [] tok) (scan_nil_fragment_long e f tok hfit)
            (e := ErrTooLong) rfl
          exact Or.inl ⟨ev, h, hev, by simp [tokensFrom, hfit, menuLines_nil], Or.inl (by simp)⟩
        | true =>
          have hs := scan_nil_fragment_fits e f tok hfit
          by_cases h7 : f = "7"
          · subst h7
            refine Or.inr (Or.inl ⟨by simp [tokensFrom, hfit, menuLines_seven], ?_⟩)
            exact editBody_save_gen env index (loopState w (some ⟨e, some "7"⟩) secret [] tok) hs rfl
          · refine Or.inl ?_
            have hm : "7" ∉ menuLines (tokensFrom (some ⟨e, some f⟩) []) := by
              simp [tokensFrom, hfit, menuLines_single h7, Ne.symm h7]
            cases hf : isField f with
            | true =>
              obtain ⟨ev, h, hev⟩ := editBody_field_stop env index
                (loopState w (some ⟨e, some f⟩) secret [] tok) hs hf
                (scan_nil_err e f (some e)) (e := e) (by simp [setErr])
              exact ⟨ev, h, hev, hm, Or.inl (by simp)⟩
            | false =>
              refine ⟨(menuPrints ++ [.Scan true f, .Println ["Invalid choice. Please try again."]])
                ++ [.Println ["Error reading input:", e]], ?_, ?_, hm, Or.inl (by simp)⟩
              · rw [editBody_other_gen env index (loopState w (some ⟨e, some f⟩) secret [] tok) hs
                  hf h7, checkErr_some _ _ e rfl]
                rfl
              · refine noEdit_append (menu_noEdit_other f) ?_
                intro x hx
                simp at hx
                subst hx
                rfl
  | cons c rest =>
    cases hfit : fits c with
    | false =>
      obtain ⟨ev, h, hev⟩ := editBody_stop_at_menu env index
        (loopState w failure secret (c :: rest) tok) (scan_cons_long failure c tok rest hfit)
        (e := ErrTooLong) rfl
      exact Or.inl ⟨ev, h, hev, by simp [tokensFrom_cons_long failure rest hfit, menuLines_nil],
        Or.inr ⟨c, List.mem_cons_self _ _, hfit⟩⟩
    | true =>
      have hs := scan_cons_fits failure c tok rest hfit
      rw [tokensFrom_cons_fits failure rest hfit]
      by_cases h7 : c = "7"
      · subst h7
        exact Or.inr (Or.inl ⟨menuLines_seven _, editBody_save env index w failure secret tok rest⟩)
      · cases hf : isField c with
        | false =>
          refine Or.inr (Or.inr ⟨_, secret, rest, c,
            editBody_other env index w failure secret tok c rest hfit hf h7, menu_noEdit_other c,
            rfl, Or.inr ⟨c, [c], h7, by simp, rfl, menuLines_other _ hf h7, fun _ _ => rfl⟩⟩)
        | true =>
          cases rest with
          | nil =>
            cases failure with
            | none =>
              obtain ⟨ev, h, hev⟩ := editBody_field_eof env index w secret tok c hfit hf
              refine Or.inr (Or.inr ⟨ev, setField env c "" secret, [], "", h, hev,
                setField_CreatedAt env c "" secret, Or.inr ⟨c, [c], h7, by simp, rfl, ?_,
                  fun f hfc => setField_get_ne env "" secret hfc⟩⟩)
              simp [tokensFrom, menuLines_field_one hf, menuLines_nil]
            | some fl =>
              obtain ⟨e, frag⟩ := fl
              refine Or.inl ?_
              have hm : "7" ∉ menuLines (c :: tokensFrom (some ⟨e, frag⟩) []) := by
                cases frag with
                | none => simp [tokensFrom, menuLines_field_one hf, Ne.symm h7]
                | some f =>
                  cases hff : fits f with
                  | true => simp [tokensFrom, hff, menuLines_field f [] hf, menuLines_nil, Ne.symm h7]
                  | false => simp [tokensFrom, hff, menuLines_field_one hf, Ne.symm h7]
              cases frag with
              | none =>
                obtain ⟨ev, h, hev⟩ := editBody_field_stop env index
                  (loopState w (some ⟨e, none⟩) secret [c] tok) hs hf
                  (scan_nil_err e c none) (e := e) (by simp [setErr])
                exact ⟨ev, h, hev, hm, Or.inl (by simp)⟩
              | some f =>
                cases hff : fits f with
                | true =>
                  obtain ⟨ev, h, hev⟩ := editBody_field_stop env index
                    (loopState w (some ⟨e, some f⟩) secret [c] tok) hs hf
                    (scan_nil_fragment_fits e f c hff) (e := e) rfl
                  exact ⟨ev, h, hev, hm, Or.inl (by simp)⟩
                | false =>
                  obtain ⟨ev, h, hev⟩ := editBody_field_stop env index
                    (loopState w (some ⟨e, some f⟩) secret [c] tok) hs hf
                    (scan_nil_fragment_long e f c hff) (e := ErrTooLong) rfl
                  exact ⟨ev, h, hev, hm, Or.inl (by simp)⟩
          | cons v rest1 =>
            cases hfv : fits v with
            | true =>
              obtain ⟨ev, h, hev⟩ :=
                editBody_field_value env index w failure secret tok c v rest1 hfit hfv hf
              refine Or.inr (Or.inr ⟨ev, setField env c v secret, rest1, v, h, hev,
                setField_CreatedAt env c v secret, Or.inr ⟨c, [c, v], h7, by simp, rfl, ?_,
                  fun f hfc => setField_get_ne env v secret hfc⟩⟩)
              rw [tokensFrom_cons_fits failure rest1 hfv, menuLines_field v _ hf]
            | false =>
              obtain ⟨ev, h, hev⟩ := editBody_field_stop env index
                (loopState w failure secret (c :: v :: rest1) tok) hs hf
                (scan_cons_long failure v c rest1 hfv) (e := ErrTooLong) rfl
              refine Or.inl ⟨ev, h, hev, ?_, Or.inr ⟨v, by simp, hfv⟩⟩
              simp [tokensFrom_cons_long failure rest1 hfv, menuLines_field_one hf, Ne.symm h7]

lemma editsFollowSave_of_noEdit {t : List Event} (h : ∀ e ∈ t, e.isEdit = false) :
    EditsFollowSave t := by
  intro pre post w1 i r ht
  exfalso
  refine not_mem_of_noEdit h w1 i r ?_
  rw [ht]
  simp

lemma editsFollowSave_append {a b : List Event} (ha : EditsFollowSave a)
    (hb : EditsFollowSave b) : EditsFollowSave (a ++ b) := by
  intro pre post w1 i r ht
  rcases List.append_eq_append_iff.mp ht with ⟨a', h1, h2⟩ | ⟨c', h1, h2⟩
  · obtain ⟨pre1, hp⟩ := hb a' post w1 i r h2
    exact ⟨a ++ pre1, by rw [h1, hp, List.append_assoc]⟩
  · cases c' with
    | nil =>
      simp only [List.nil_append] at h2
      obtain ⟨pre1, hp⟩ := hb [] post w1 i r (by rw [← h2]; rfl)
      simp at hp
    | cons x c'' =>
      simp only [List.cons_append, List.cons.injEq] at h2
      obtain ⟨hx, -⟩ := h2
      exact ha pre c'' w1 i r (by rw [h1, hx])

lemma split_unique {a b : List Event} {e0 : Event} (ha : ∀ e ∈ a, e.isEdit = false)
    (hb : ∀ e ∈ b, e.isEdit = false) :
    ∀ (pre post : List Event) (w1 : World) (i : Int) (r : Secret),
      a ++ e0 :: b = pre ++ Event.Edit w1 i r :: post → pre = a := by
  induction a with
  | nil =>
    intro pre post w1 i r h
    cases pre with
    | nil => rfl
    | cons x pre' =>
      exfalso
      simp only [List.nil_append, List.cons_append, List.cons.injEq] at h
      refine not_mem_of_noEdit hb w1 i r ?_
      rw [h.2]
      simp
  | cons y a' ih =>
    intro pre post w1 i r h
    cases pre with
    | nil =>
      exfalso
      simp only [List.nil_append, List.cons_append, List.cons.injEq] at h
      have := ha y (List.mem_cons_self _ _)
      rw [h.1] at this
      simp [Event.isEdit] at this
    | cons x pre' =>
      simp only [List.cons_append, List.cons.injEq] at h
      rw [h.1, ih (fun e he => ha e (List.mem_cons_of_mem _ he)) pre' post w1 i r h.2]

lemma editsFollowSave_save (w2 : World) (index : Int) (s : Secret) (msg : List String) :
    EditsFollowSave (menuPrints ++ [.Scan true "7", .Edit w2 index s, .Println msg]) := by
  intro pre post w1 i r ht
  have h : (menuPrints ++ [Event.Scan true "7"]) ++ Event.Edit w2 index s :: [.Println msg] =
      pre ++ Event.Edit w1 i r :: post := by
    rw [← ht]; simp
  have hp := split_unique (a := menuPrints ++ [Event.Scan true "7"]) (b := [.Println msg])
    (by
      intro e he
      rcases List.mem_append.mp he with he | he
      · exact menuPrints_noEdit e he
      · simp at he; subst he; rfl)
    (by intro e he; simp at he; subst he; rfl) pre post w1 i r h
  rw [hp]
  exact ⟨menuPrints.dropLast, by simp [menuPrints]⟩

lemma editLoop_editsFollowSave (env : Collab) (index : Int) (w : World)
    (failure : Option ReadError) :
    ∀ (fuel : Nat) (lines : List String) (secret : Secret) (tok : String),
      EditsFollowSave (editLoop env index fuel (loopState w failure secret lines tok)).1 := by
  intro fuel
  induction fuel with
  | zero =>
    intro lines secret tok
    exact editsFollowSave_of_noEdit (by simp [editLoop])
  | succ n ih =>
    intro lines secret tok
    rcases editBody_step env index w failure secret lines tok with
      ⟨ev, h, hev, -, -⟩ | ⟨-, h⟩ | ⟨ev, s1, l1, t1, h, hev, -, -⟩
    · rw [editLoop_succ_done env index n h]
      exact editsFollowSave_of_noEdit hev
    · rw [editLoop_succ_done env index n h]
      exact editsFollowSave_save _ _ _ _
    · rw [editLoop_succ_next env index n h]
      exact editsFollowSave_append (editsFollowSave_of_noEdit hev) (ih _ _ _)

lemma editLoop_no_save (env : Collab) (index : Int) (w : World) (failure : Option ReadError) :
    ∀ (fuel : Nat) (lines : List String) (secret : Secret) (tok : String),
      "7" ∉ menuLines (tokensFrom failure lines) →
      (∀ e ∈ (editLoop env index fuel (loopState w failure secret lines tok)).1,
          e.isEdit = false) ∧
        (editLoop env index fuel (loopState w failure secret lines tok)).2.world = w ∧
        (failure = none → (∀ l ∈ lines, fits l = true) →
          ∃ st, (editLoop env index fuel (loopState w failure secret lines tok)).2 =
            .running st) := by
  intro fuel
  induction fuel with
  | zero =>
    intro lines secret tok _
    simp [editLoop, EditRun.world, loopState]
  | succ n ih =>
    intro lines secret tok h7
    rcases editBody_step env index w failure secret lines tok with
      ⟨ev, h, hev, -, hbad⟩ | ⟨hm, -⟩ | ⟨ev, s1, l1, t1, h, hev, -, hrel⟩
    · rw [editLoop_succ_done env index n h]
      refine ⟨hev, rfl, ?_⟩
      intro hf hfit
      exfalso
      rcases hbad with hb | ⟨l, hl, hlf⟩
      · exact hb hf
      · rw [hfit l hl] at hlf
        cases hlf
    · rw [hm] at h7
      simp at h7
    · rw [editLoop_succ_next env index n h]
      have h7' : "7" ∉ menuLines (tokensFrom failure l1) := by
        rcases hrel with ⟨hl, -, hl1, -, -⟩ | ⟨c, pre, -, -, -, hml, -⟩
        · rw [hl1]; rw [hl] at h7; exact h7
        · rw [hml] at h7
          exact fun hm => h7 (List.mem_cons_of_mem _ hm)
      obtain ⟨i1, i2, i3⟩ := ih l1 s1 t1 h7'
      refine ⟨noEdit_append hev i1, i2, ?_⟩
      intro hf hfit
      refine i3 hf ?_
      rcases hrel with ⟨-, -, hl1, -, -⟩ | ⟨c, pre, -, -, hpre, -, -⟩
      · rw [hl1]; simp
      · intro l hl
        exact hfit l (by rw [hpre]; exact List.mem_append_right _ hl)

lemma editLoop_edit_event (env : Collab) (index : Int) (w : World)
    (failure : Option ReadError) :
    ∀ (fuel : Nat) (lines : List String) (secret : Secret) (tok : String) (w1 : World) (i : Int)
      (r : Secret),
      Event.Edit w1 i r ∈ (editLoop env index fuel (loopState w failure secret lines tok)).1 →
      i = index ∧ w1 = saveWorld env w ∧ r.UpdatedAt = some w.heap.length ∧
        r.CreatedAt = secret.CreatedAt ∧
        ∀ f, f ∉ menuLines (tokensFrom failure lines) → r.get f = secret.get f := by
  intro fuel
  induction fuel with
  | zero =>
    intro lines secret tok w1 i r hm
    simp [editLoop] at hm
  | succ n ih =>
    intro lines secret tok w1 i r hm
    rcases editBody_step env index w failure secret lines tok with
      ⟨ev, h, hev, -, -⟩ | ⟨-, h⟩ | ⟨ev, s1, l1, t1, h, hev, hcr, hrel⟩
    · rw [editLoop_succ_done env index n h] at hm
      exact absurd hm (not_mem_of_noEdit hev _ _ _)
    · rw [editLoop_succ_done env index n h] at hm
      simp [menuPrints] at hm
      obtain ⟨h1, h2, h3⟩ := hm
      subst h1 h2 h3
      refine ⟨rfl, rfl, rfl, rfl, ?_⟩
      intro f _
      simp [saveSecret, Secret.get]
    · rw [editLoop_succ_next env index n h] at hm
      rcases List.mem_append.mp hm with he | he
      · exact absurd he (not_mem_of_noEdit hev _ _ _)
      · obtain ⟨i1, i2, i3, i4, i5⟩ := ih l1 s1 t1 w1 i r he
        refine ⟨i1, i2, i3, by rw [i4, hcr], ?_⟩
        intro f hfm
        rcases hrel with ⟨hl, -, hl1, hs1, -⟩ | ⟨c, pre, -, -, -, hml, hget⟩
        · rw [hl] at hfm
          rw [hl1] at i5
          rw [i5 f hfm, hs1]
        · rw [hml] at hfm
          rw [i5 f (fun hm => hfm (List.mem_cons_of_mem _ hm)),
            hget f (fun hfc => hfm (by rw [hfc]; exact List.mem_cons_self _ _))]

lemma filter_isEdit_of_noEdit {ev : List Event} (h : ∀ e ∈ ev, e.isEdit = false) :
    ev.filter Event.isEdit = [] := by
  rw [List.filter_eq_nil_iff]
  intro e he
  simp [h e he]

/-- When "7" is among the menu lines of the tokens left, the loop reaches the
save step within one pass per line left (and one more): `Edit` is called
exactly once, with a record whose `UpdatedAt` points to the fresh cell, and
the command returns with the memory `Edit` leaves. -/
lemma editLoop_reaches_save (env : Collab) (index : Int) (w : World)
    (failure : Option ReadError) :
    ∀ (fuel : Nat) (lines : List String) (secret : Secret) (tok : String),
      "7" ∈ menuLines (tokensFrom failure lines) → lines.length + 1 ≤ fuel →
      ∃ r, r.UpdatedAt = some w.heap.length ∧
        (editLoop env index fuel (loopState w failure secret lines tok)).1.filter Event.isEdit =
          [.Edit (saveWorld env w) index r] ∧
        (editLoop env index fuel (loopState w failure secret lines tok)).2 =
          .returned (env.Edit (saveWorld env w) index r).1 := by
  intro fuel
  induction fuel with
  | zero => intro lines secret tok _ hf; omega
  | succ n ih =>
    intro lines secret tok h7 hfuel
    rcases editBody_step env index w failure secret lines tok with
      ⟨ev, h, hev, hno, -⟩ | ⟨-, h⟩ | ⟨ev, s1, l1, t1, h, hev, -, hrel⟩
    · exact absurd h7 hno
    · rw [editLoop_succ_done env index n h]
      refine ⟨saveSecret w secret, rfl, ?_, rfl⟩
      simp only [List.filter_append, filter_isEdit_of_noEdit menuPrints_noEdit]
      simp [Event.isEdit]
    · rw [editLoop_succ_next env index n h]
      rcases hrel with ⟨hl, hf, -, -, -⟩ | ⟨c, pre, hc7, hpre, hlines, hml, -⟩
      · subst hl hf
        simp [tokensFrom, menuLines_nil] at h7
      · rw [hml] at h7
        have h7' : "7" ∈ menuLines (tokensFrom failure l1) := by
          rcases List.mem_cons.mp h7 with h | h
          · exact absurd h.symm hc7
          · exact h
        have hlen : l1.length + 1 ≤ n := by
          have : 0 < pre.length := List.length_pos.mpr hpre
          have := congrArg List.length hlines
          simp at this
          omega
        obtain ⟨r, hr, hfil, hrun⟩ := ih l1 s1 t1 h7' hlen
        refine ⟨r, hr, ?_, hrun⟩
        simp only [List.filter_append, filter_isEdit_of_noEdit hev, hfil, List.nil_append]

lemma setField_get_eq (env : Collab) {c : String} (v : String) (s : Secret)
    (hf : isField c = true) : (setField env c v s).get c = storedValue env c v := by
  rcases isField_cases hf with h | h | h | h | h | h <;> subst h <;>
    simp [setField, Secret.get, storedValue]

lemma applyItems_CreatedAt (env : Collab) (items : List Item) :
    ∀ s, (applyItems env items s).CreatedAt = s.CreatedAt := by
  induction items with
  | nil => intro s; rfl
  | cons it rest ih =>
    intro s
    cases it with
    | field c v => simp only [applyItems, ih, setField_CreatedAt]
    | other l => simp only [applyItems, ih]

lemma applyItems_get (env : Collab) (f : String) (items : List Item) :
    ∀ s, (∀ it ∈ items, it.ok = true) →
      (applyItems env items s).get f =
        ((lastValue f items).map (storedValue env f)).getD (s.get f) := by
  induction items with
  | nil => intro s _; rfl
  | cons it rest ih =>
    intro s hok
    have hrest : ∀ it ∈ rest, it.ok = true := fun x hx => hok x (List.mem_cons_of_mem _ hx)
    have hit := hok it (List.mem_cons_self _ _)
    cases it with
    | field c v =>
      simp only [Item.ok] at hit
      simp only [applyItems, lastValue, ih _ hrest]
      cases hl : lastValue f rest with
      | some x => simp
      | none =>
        by_cases hcf : c = f
        · subst hcf
          simp [setField_get_eq env v s hit]
        · simp [hcf, setField_get_ne env v s (Ne.symm hcf)]
    | other l => simp only [applyItems, lastValue, ih _ hrest]

lemma editLoop_fixed (env : Collab) (index : Int) (w : World) (secret : Secret) :
    ∀ k, (editLoop env index k (loopState w none secret [] "")).2 =
      .running (loopState w none secret [] "") := by
  intro k
  induction k with
  | zero => rfl
  | succ n ih => rw [editLoop_succ_next env index n (editBody_nil_eof env index w secret ""), ih]

lemma indexSecrets_of_valid {secrets : List Secret} {index : Int}
    (hv : Validate secrets index = none) : ∃ stored, indexSecrets secrets index = some stored := by
  have hr : 0 ≤ index ∧ index < (secrets.length : Int) := by
    unfold Validate at hv
    split at hv
    · simp at hv
    · omega
  have hlt : index.toNat < secrets.length := by omega
  refine ⟨secrets[index.toNat], ?_⟩
  unfold indexSecrets
  rw [if_neg (by omega)]
  exact List.getElem?_eq_getElem hlt

lemma editSecret_of_valid (env : Collab) (fuel : Nat) (w : World) (stdin : Stdin) (index : Int)
    {stored : Secret} (hv : Validate w.secrets index = none)
    (hs : indexSecrets w.secrets index = some stored) :
    editSecret env fuel w stdin index =
      ([.Validate index, .Println ["Editing secret:", stored.Title]] ++
          (editLoop env index fuel (loopState w stdin.failure stored stdin.lines "")).1,
        (editLoop env index fuel (loopState w stdin.failure stored stdin.lines "")).2.outcome) := by
  simp only [editSecret, hv, hs]
  rfl

lemma outcome_world (r : EditRun) : r.outcome.world = r.world := by
  cases r <;> rfl

lemma header_noEdit (index : Int) (title : String) :
    ∀ e ∈ [Event.Validate index, .Println ["Editing secret:", title]], e.isEdit = false := by
  intro e he
  simp at he
  rcases he with he | he <;> subst he <;> rfl

lemma saveWorld_heap (env : Collab) (w : World) :
    (saveWorld env w).heap = w.heap ++ [env.Now] := by
  simp [saveWorld]

lemma getD_map_storedValue (env : Collab) {f : String} (o : Option String) (d : String)
    (hf : f ≠ "3") : (o.map (storedValue env f)).getD d = o.getD d := by
  cases o <;> simp [storedValue, hf]

lemma fits_of_isField {c : String} (h : isField c = true) : fits c = true := by
  rcases isField_cases h with h | h | h | h | h | h <;> subst h <;> decide

lemma tokensFrom_none_of_fits (lines : List String) (h : ∀ l ∈ lines, fits l = true) :
    tokensFrom none lines = lines := by
  induction lines with
  | nil => rfl
  | cons l rest ih =>
    rw [tokensFrom_cons_fits none rest (h l (List.mem_cons_self _ _)),
      ih (fun x hx => h x (List.mem_cons_of_mem _ hx))]

lemma editLoop_items (env : Collab) (index : Int) (w : World) (failure : Option ReadError)
    (rest : List String) (k : Nat) (items : List Item) :
    ∀ (secret : Secret) (tok : String), (∀ it ∈ items, it.ok = true) →
      (∀ l ∈ itemLines items, fits l = true) →
      ∃ ev tok1, (∀ e ∈ ev, e.isEdit = false) ∧
        editLoop env index (items.length + k)
            (loopState w failure secret (itemLines items ++ rest) tok) =
          (ev ++ (editLoop env index k
              (loopState w failure (applyItems env items secret) rest tok1)).1,
            (editLoop env index k
              (loopState w failure (applyItems env items secret) rest tok1)).2) := by
  induction items with
  | nil =>
    intro secret tok _ _
    refine ⟨[], tok, by simp, ?_⟩
    simp [itemLines, applyItems]
  | cons it its ih =>
    intro secret tok hok hfit
    have hrest : ∀ it ∈ its, it.ok = true := fun x hx => hok x (List.mem_cons_of_mem _ hx)
    have hit := hok it (List.mem_cons_self _ _)
    have hlen : (it :: its).length + k = (its.length + k) + 1 := by
      simp only [List.length_cons]; omega
    rw [hlen]
    cases it with
    | field c v =>
      simp only [Item.ok] at hit
      have hfv : fits v = true := hfit v (by simp [itemLines])
      have hfr : ∀ l ∈ itemLines its, fits l = true :=
        fun l hl => hfit l (by simp [itemLines, hl])
      obtain ⟨ev, hb, hev⟩ := editBody_field_value env index w failure secret tok c v
        (itemLines its ++ rest) (fits_of_isField hit) hfv hit
      obtain ⟨ev2, tok1, hev2, h2⟩ := ih (setField env c v secret) v hrest hfr
      refine ⟨ev ++ ev2, tok1, noEdit_append hev hev2, ?_⟩
      simp only [itemLines, List.cons_append, applyItems]
      rw [editLoop_succ_next env index _ hb, h2, List.append_assoc]
    | other l =>
      simp only [Item.ok, Bool.and_eq_true, Bool.not_eq_true', decide_eq_true_eq] at hit
      have hfl : fits l = true := hfit l (by simp [itemLines])
      have hfr : ∀ x ∈ itemLines its, fits x = true :=
        fun x hx => hfit x (by simp [itemLines, hx])
      obtain ⟨ev2, tok1, hev2, h2⟩ := ih secret l hrest hfr
      refine ⟨(menuPrints ++ [.Scan true l, .Println ["Invalid choice. Please try again."]]) ++ ev2,
        tok1, noEdit_append (menu_noEdit_other l) hev2, ?_⟩
      simp only [itemLines, List.cons_append, applyItems]
      rw [editLoop_succ_next env index _
        (editBody_other env index w failure secret tok l (itemLines its ++ rest) hfl hit.1 hit.2),
        h2]
      simp

lemma editLoop_stalls (env : Collab) (index : Int) (w : World) :
    ∀ (n : Nat) (lines : List String) (secret : Secret) (tok : String),
      lines.length ≤ n → (∀ l ∈ lines, fits l = true) →
      "7" ∉ menuLines (tokensFrom none lines) →
      ∃ secret1, ∀ fuel, lines.length + 1 ≤ fuel →
        (editLoop env index fuel (loopState w none secret lines tok)).2 =
          .running (loopState w none secret1 [] "") := by
  intro n
  induction n with
  | zero =>
    intro lines secret tok hl _ _
    have : lines = [] := List.length_eq_zero.mp (by omega)
    subst this
    refine ⟨secret, fun fuel hf => ?_⟩
    obtain ⟨m, rfl⟩ : ∃ m, fuel = m + 1 := ⟨fuel - 1, by simp at hf; omega⟩
    rw [editLoop_succ_next env index m (editBody_nil_eof env index w secret tok)]
    exact editLoop_fixed env index w secret m
  | succ n ih =>
    intro lines secret tok hl hfit h7
    rcases editBody_step env index w none secret lines tok with
      ⟨ev, -, -, -, hbad⟩ | ⟨hm, -⟩ | ⟨ev, s1, l1, t1, h, -, -, hrel⟩
    · exfalso
      rcases hbad with hb | ⟨l, hl, hlf⟩
      · exact hb rfl
      · rw [hfit l hl] at hlf
        cases hlf
    · rw [hm] at h7
      simp at h7
    · rcases hrel with ⟨-, -, hl1, hs1, ht1⟩ | ⟨c, pre, -, hpre, hlines, hml, -⟩
      · rw [hl1, hs1, ht1] at h
        refine ⟨secret, fun fuel hf => ?_⟩
        obtain ⟨m, rfl⟩ : ∃ m, fuel = m + 1 := ⟨fuel - 1, by omega⟩
        rw [editLoop_succ_next env index m h]
        exact editLoop_fixed env index w secret m
      · have hlen : l1.length + 1 ≤ lines.length := by
          have : 0 < pre.length := List.length_pos.mpr hpre
          have := congrArg List.length hlines
          simp at this
          omega
        obtain ⟨s2, hs2⟩ := ih l1 s1 t1 (by omega)
          (fun l hl => hfit l (by rw [hlines]; exact List.mem_append_right _ hl))
          (by rw [hml] at h7; exact fun hm => h7 (List.mem_cons_of_mem _ hm))
        refine ⟨s2, fun fuel hf => ?_⟩
        obtain ⟨m, rfl⟩ : ∃ m, fuel = m + 1 := ⟨fuel - 1, by omega⟩
        rw [editLoop_succ_next env index m h]
        exact hs2 m (by omega)

lemma byteLength_longLine : byteLength longLine = MaxScanTokenSize := by
  simp [byteLength, longLine, charBytes]

lemma fits_longLine : fits longLine = false := by
  simp [fits, byteLength_longLine]

/-- The first of `tokensFrom` is what `Scan` delivers: `Scan` returns false
exactly when there is no token, and else leaves the first token. -/
lemma scan_tokensFrom (fl : Option ReadError) (lines : List String) (tok : String) :
    match tokensFrom fl lines with
    | [] => (Scanner.Scan ⟨⟨lines, fl⟩, tok, none⟩).1 = false
    | t :: _ =>
      (Scanner.Scan ⟨⟨lines, fl⟩, tok, none⟩).1 = true ∧
        (Scanner.Scan ⟨⟨lines, fl⟩, tok, none⟩).2.token = t := by
  cases lines with
  | nil =>
    cases fl with
    | none => simp [tokensFrom, Scanner.Scan]
    | some r =>
      obtain ⟨e, frag⟩ := r
      cases frag with
      | none => simp [tokensFrom, Scanner.Scan]
      | some f =>
        cases hf : fits f with
        | true => simp [tokensFrom, hf, scan_nil_fragment_fits e f tok hf]
        | false => simp [tokensFrom, hf, scan_nil_fragment_long e f tok hf]
  | cons l rest =>
    cases hf : fits l with
    | true => simp [tokensFrom, hf, scan_cons_fits fl l tok rest hf]
    | false => simp [tokensFrom, hf, scan_cons_long fl l tok rest hf]

/-- C1: for a valid index, every `Edit` call in a run of `editSecret` comes
right after the line "7" was scanned at the menu prompt (a line scanned after
a field prompt never leads to it); and when no token read at the menu prompt
is "7" (the input ends, fails or has a line too long for the scanner before),
`Edit` is never called and the memory, with the collection, is as on entry. -/
theorem editSecret_edit_only_after_menu_seven (env : Collab) (fuel : Nat) (w : World)
    (stdin : Stdin) (index : Int) (hv : Validate w.secrets index = none) :
    (∀ pre post w1 i r,
      (editSecret env fuel w stdin index).1 = pre ++ Event.Edit w1 i r :: post →
      ∃ pre1, pre = pre1 ++ [.Print "Enter your choice (1-7): ", .Scan true "7"]) ∧
    ("7" ∉ menuLines stdin.tokens →
      (∀ e ∈ (editSecret env fuel w stdin index).1, e.isEdit = false) ∧
      (editSecret env fuel w stdin index).2.world = w) := by
  obtain ⟨stored, hs⟩ := indexSecrets_of_valid hv
  rw [editSecret_of_valid env fuel w stdin index hv hs]
  constructor
  · exact editsFollowSave_append (editsFollowSave_of_noEdit (header_noEdit _ _))
      (editLoop_editsFollowSave env index w stdin.failure fuel stdin.lines stored "")
  · intro h7
    obtain ⟨h1, h2, -⟩ := editLoop_no_save env index w stdin.failure fuel stdin.lines stored "" h7
    exact ⟨noEdit_append (header_noEdit _ _) h1, by rw [outcome_world]; exact h2⟩

/-- Witness of C1: the "7" typed as the new title is not a menu line, so with
input "1", "7" and then end of input the memory is unchanged. -/
theorem editSecret_edit_only_after_menu_seven_witness :
    (editSecret sampleEnv 5 sampleWorld ⟨["1", "7"], none⟩ 0).2.world = sampleWorld :=
  ((editSecret_edit_only_after_menu_seven sampleEnv 5 sampleWorld ⟨["1", "7"], none⟩ 0
    (by decide)).2 (by decide)).2

/-- C4: for a valid index, the record of every `Edit` call of `editSecret` has
the `CreatedAt` of the stored record, and each of the six fields whose menu
number was not read at the menu prompt equals the stored record's field. -/
theorem editSecret_keeps_unchosen_fields (env : Collab) (fuel : Nat) (w : World)
    (stdin : Stdin) (index : Int) (stored : Secret) (hv : Validate w.secrets index = none)
    (hs : indexSecrets w.secrets index = some stored) :
    ∀ w1 i r, Event.Edit w1 i r ∈ (editSecret env fuel w stdin index).1 →
      r.CreatedAt = stored.CreatedAt ∧
      ("1" ∉ menuLines stdin.tokens → r.Title = stored.Title) ∧
      ("2" ∉ menuLines stdin.tokens → r.Username = stored.Username) ∧
      ("3" ∉ menuLines stdin.tokens → r.Password = stored.Password) ∧
      ("4" ∉ menuLines stdin.tokens → r.Note = stored.Note) ∧
      ("5" ∉ menuLines stdin.tokens → r.Email = stored.Email) ∧
      ("6" ∉ menuLines stdin.tokens → r.Website = stored.Website) := by
  intro w1 i r hm
  rw [editSecret_of_valid env fuel w stdin index hv hs] at hm
  rcases List.mem_append.mp hm with he | he
  · exact absurd he (not_mem_of_noEdit (header_noEdit _ _) _ _ _)
  · obtain ⟨-, -, -, h4, h5⟩ :=
      editLoop_edit_event env index w stdin.failure fuel stdin.lines stored "" w1 i r he
    refine ⟨h4, ?_, ?_, ?_, ?_, ?_, ?_⟩
    · intro h; simpa [Secret.get] using h5 "1" h
    · intro h; simpa [Secret.get] using h5 "2" h
    · intro h; simpa [Secret.get] using h5 "3" h
    · intro h; simpa [Secret.get] using h5 "4" h
    · intro h; simpa [Secret.get] using h5 "5" h
    · intro h; simpa [Secret.get] using h5 "6" h

/-- Witness of C4: after the title alone is edited and saved, the record
passed to `Edit` has the stored password. -/
theorem editSecret_keeps_unchosen_fields_witness :
    ({ sampleSecret with Title := "New", UpdatedAt := some 0 } : Secret).Password =
      sampleSecret.Password :=
  (editSecret_keeps_unchosen_fields sampleEnv 5 sampleWorld ⟨["1", "New", "7"], none⟩ 0
    sampleSecret (by decide) (by decide) (saveWorld sampleEnv sampleWorld) 0
    { sampleSecret with Title := "New", UpdatedAt := some 0 } (by decide)).2.2.2.1 (by decide)

/-- C5: for a valid index, every input that reaches save (a "7" is read at
the menu prompt) makes `editSecret` return after calling `Edit` exactly once,
with a record whose `UpdatedAt` is present and points to a cell that holds the
clock reading of the save step; this holds with no field chosen and whatever
the stored `UpdatedAt` was. At every `Edit` call the cell is fresh (it is not
a cell of the heap on entry), every cell of the heap on entry is unchanged and
the collection is unchanged, so the `UpdatedAt` of the stored record is not
written. -/
theorem editSecret_sets_updatedAt (env : Collab) (fuel : Nat) (w : World) (stdin : Stdin)
    (index : Int) (hv : Validate w.secrets index = none) :
    ("7" ∈ menuLines stdin.tokens → stdin.lines.length + 1 ≤ fuel →
      ∃ r, (editSecret env fuel w stdin index).1.filter Event.isEdit =
          [.Edit (saveWorld env w) index r] ∧
        (editSecret env fuel w stdin index).2 =
          .returned (env.Edit (saveWorld env w) index r).1 ∧
        r.UpdatedAt = some w.heap.length ∧
        (saveWorld env w).heap[w.heap.length]? = some env.Now) ∧
    (∀ w1 i r, Event.Edit w1 i r ∈ (editSecret env fuel w stdin index).1 →
      i = index ∧
      (∃ a, r.UpdatedAt = some a ∧ w1.heap[a]? = some env.Now ∧ a = w.heap.length) ∧
      w1.secrets = w.secrets ∧
      w1.heap.length = w.heap.length + 1 ∧
      ∀ b, b < w.heap.length → w1.heap[b]? = w.heap[b]?) := by
  obtain ⟨stored, hs⟩ := indexSecrets_of_valid hv
  have hcell : (saveWorld env w).heap[w.heap.length]? = some env.Now := by
    rw [saveWorld_heap]; simp
  constructor
  · intro h7 hfuel
    obtain ⟨r, hr, hfil, hrun⟩ :=
      editLoop_reaches_save env index w stdin.failure fuel stdin.lines stored "" h7 hfuel
    refine ⟨r, ?_, ?_, hr, hcell⟩
    · rw [editSecret_of_valid env fuel w stdin index hv hs]
      simp only [List.filter_append, filter_isEdit_of_noEdit (header_noEdit _ _), hfil,
        List.nil_append]
    · rw [editSecret_of_valid env fuel w stdin index hv hs]
      simp only [hrun, EditRun.outcome]
  · intro w1 i r hm
    rw [editSecret_of_valid env fuel w stdin index hv hs] at hm
    rcases List.mem_append.mp hm with he | he
    · exact absurd he (not_mem_of_noEdit (header_noEdit _ _) _ _ _)
    · obtain ⟨h1, h2, h3, -, -⟩ :=
        editLoop_edit_event env index w stdin.failure fuel stdin.lines stored "" w1 i r he
      subst h2
      refine ⟨h1, ⟨w.heap.length, h3, hcell, rfl⟩, rfl, ?_, ?_⟩
      · rw [saveWorld_heap]; simp
      · intro b hb
        rw [saveWorld_heap, List.getElem?_append_left hb]

/-- Witness of C5: a record edited before (its `UpdatedAt` points to cell 0)
is saved with no field chosen: the run calls `Edit` once, with `UpdatedAt`
pointing to the new cell 1, which holds the clock reading 77. -/
theorem editSecret_sets_updatedAt_witness :
    ∃ r : Secret, r.UpdatedAt = some 1 ∧
      (editSecret sampleEnv 5 editedWorld ⟨["7"], none⟩ 0).1.filter Event.isEdit =
        [.Edit { secrets := editedWorld.secrets, heap := [3, 77], suggested := 0 } 0 r] := by
  obtain ⟨r, h1, -, h3, -⟩ :=
    (editSecret_sets_updatedAt sampleEnv 5 editedWorld ⟨["7"], none⟩ 0 (by decide)).1
      (by decide) (by decide)
  exact ⟨r, h3, h1⟩

lemma longLine_field_stops :
    ∃ ev, editBody sampleEnv 0
        (loopState sampleWorld none sampleSecret ["1", longLine, "7"] "") =
          (ev, .done sampleWorld) ∧
      ∀ e ∈ ev, e.isEdit = false :=
  editBody_field_stop sampleEnv 0
    (loopState sampleWorld none sampleSecret ["1", longLine, "7"] "")
    (scan_cons_fits none "1" "" [longLine, "7"] (by decide)) (by decide)
    (scan_cons_long none longLine "1" ["7"] fits_longLine) (e := ErrTooLong) rfl

/-- C3 as stated fails on the code in two ways. (1) The value typed for the
title is a line of 64 KiB, which is too long for the scanner: the value scan
fails, the pass reports the error and `editSecret` returns without calling
`Edit`, although the input is a field exchange followed by "7". (2) With an
`Encrypt` that fails (returning the empty string), the empty value typed for
the password is saved as the password: the record holds the typed text. -/
theorem editSecret_saves_last_values_counterexample :
    (Item.ok (.field "1" longLine) = true ∧
      itemLines [.field "1" longLine] ++ ["7"] = ["1", longLine, "7"] ∧
      (editSecret sampleEnv 5 sampleWorld ⟨["1", longLine, "7"], none⟩ 0).1.filter
        Event.isEdit = [] ∧
      (editSecret sampleEnv 5 sampleWorld ⟨["1", longLine, "7"], none⟩ 0).2 =
        .returned sampleWorld) ∧
    (failingEncryptEnv.Encrypt "").1 = "" ∧
    (editSecret failingEncryptEnv 5 sampleWorld ⟨["3", "", "7"], none⟩ 0).1.filter
        Event.isEdit =
      [.Edit (saveWorld failingEncryptEnv sampleWorld) 0
        { sampleSecret with Password := "", UpdatedAt := some 0 }] := by
  refine ⟨⟨by decide, rfl, ?_, ?_⟩, rfl, by decide⟩
  · obtain ⟨ev, h, hev⟩ := longLine_field_stops
    rw [@editSecret_of_valid sampleEnv 5 sampleWorld _ 0 sampleSecret (by decide)
      (by decide), editLoop_succ_done sampleEnv 0 4 h]
    exact filter_isEdit_of_noEdit (noEdit_append (header_noEdit _ _) hev)
  · obtain ⟨ev, h, hev⟩ := longLine_field_stops
    rw [@editSecret_of_valid sampleEnv 5 sampleWorld _ 0 sampleSecret (by decide)
      (by decide), editLoop_succ_done sampleEnv 0 4 h]
    rfl

/-- C3 (amended): for a valid index and an input made of field exchanges (a
choice "1" ... "6" and a value) and menu lines that are none of "1" ... "7",
followed by "7", in which every line fits the buffer of the scanner (it is
shorter than 64 KiB), `editSecret` returns, having called `Edit` exactly
once, with the same index and a record in which each chosen field holds the
last value supplied for it (for the password: the first result of
`utils.Encrypt` on that value) and each other field holds the stored value. -/
theorem editSecret_saves_last_values (env : Collab) (w : World) (failure : Option ReadError)
    (index : Int) (stored : Secret) (items : List Item) (rest : List String) (fuel : Nat)
    (hv : Validate w.secrets index = none) (hs : indexSecrets w.secrets index = some stored)
    (hok : ∀ it ∈ items, it.ok = true) (hfit : ∀ l ∈ itemLines items, fits l = true)
    (hfuel : items.length + 1 ≤ fuel) :
    ∃ r,
      (editSecret env fuel w ⟨itemLines items ++ "7" :: rest, failure⟩ index).1.filter
          Event.isEdit = [.Edit (saveWorld env w) index r] ∧
      (editSecret env fuel w ⟨itemLines items ++ "7" :: rest, failure⟩ index).2 =
        .returned (env.Edit (saveWorld env w) index r).1 ∧
      r.Title = (lastValue "1" items).getD stored.Title ∧
      r.Username = (lastValue "2" items).getD stored.Username ∧
      r.Password =
        ((lastValue "3" items).map (fun v => (env.Encrypt v).1)).getD stored.Password ∧
      r.Note = (lastValue "4" items).getD stored.Note ∧
      r.Email = (lastValue "5" items).getD stored.Email ∧
      r.Website = (lastValue "6" items).getD stored.Website := by
  obtain ⟨k, rfl⟩ : ∃ k, fuel = items.length + (k + 1) := ⟨fuel - (items.length + 1), by omega⟩
  obtain ⟨ev, tok1, hev, hrun⟩ :=
    editLoop_items env index w failure ("7" :: rest) (k + 1) items stored "" hok hfit
  rw [editLoop_succ_done env index k
    (editBody_save env index w failure (applyItems env items stored) tok1 rest)] at hrun
  have hget := fun f => applyItems_get env f items stored hok
  have hpw : (saveSecret w (applyItems env items stored)).Password =
      ((lastValue "3" items).map (fun v => (env.Encrypt v).1)).getD stored.Password := by
    have := hget "3"
    simp only [Secret.get, storedValue, if_true, show ("3" : String) ≠ "1" by decide,
      show ("3" : String) ≠ "2" by decide, if_false] at this
    exact this
  refine ⟨saveSecret w (applyItems env items stored), ?_, ?_, ?_, ?_, hpw, ?_, ?_, ?_⟩
  · rw [editSecret_of_valid env _ w _ index hv hs]
    simp only [hrun, List.filter_append, filter_isEdit_of_noEdit hev,
      filter_isEdit_of_noEdit (header_noEdit _ _), filter_isEdit_of_noEdit menuPrints_noEdit]
    simp [Event.isEdit]
  · rw [editSecret_of_valid env _ w _ index hv hs]
    simp only [hrun, EditRun.outcome]
  · have := hget "1"
    rw [getD_map_storedValue env _ _ (by decide)] at this
    simpa [Secret.get] using this
  · have := hget "2"
    rw [getD_map_storedValue env _ _ (by decide)] at this
    simpa [Secret.get] using this
  · have := hget "4"
    rw [getD_map_storedValue env _ _ (by decide)] at this
    simpa [Secret.get] using this
  · have := hget "5"
    rw [getD_map_storedValue env _ _ (by decide)] at this
    simpa [Secret.get] using this
  · have := hget "6"
    rw [getD_map_storedValue env _ _ (by decide)] at this
    simpa [Secret.get] using this

/-- Witness of C3 (amended): title set twice, a stray line, the password set
once. -/
theorem editSecret_saves_last_values_witness :
    ∃ r : Secret, r.Title = "Newer" ∧ r.Password = "enc:pw" ∧ r.Username = "alice" ∧
      (editSecret sampleEnv 5 sampleWorld
          ⟨["1", "New", "x", "3", "pw", "1", "Newer", "7", "zz"], none⟩ 0).1.filter
        Event.isEdit = [.Edit (saveWorld sampleEnv sampleWorld) 0 r] := by
  obtain ⟨r, h1, -, ht, hu, hp, -, -, -⟩ :=
    editSecret_saves_last_values sampleEnv sampleWorld none 0 sampleSecret
      [.field "1" "New", .other "x", .field "3" "pw", .field "1" "Newer"] ["zz"] 5
      (by decide) (by decide) (by decide) (by decide) (by decide)
  exact ⟨r, ht, hp, hu, h1⟩

/-- C10: for a valid index, `editSecret` returns only after "7" was read at
the menu prompt or after an error of the scanner (a read error, or a line too
long for its buffer). When the input ends with no such error and with no "7"
read at the menu prompt, no run of any length returns or calls `Edit`, and
after one pass more than there are lines the loop stands in a state that its
body maps to itself. When the input ends right after a field choice, the
chosen field of the working copy in that state is the empty string (for the
password: the first result of `Encrypt` on it). -/
theorem editSecret_stalls_at_end_of_input (env : Collab) (w : World) (index : Int)
    (stored : Secret) (hv : Validate w.secrets index = none)
    (hs : indexSecrets w.secrets index = some stored) :
    (∀ stdin fuel w1,
      (editSecret env fuel w stdin index).2 = .returned w1 →
      "7" ∈ menuLines stdin.tokens ∨ stdin.failure ≠ none ∨
        ∃ l ∈ stdin.lines, fits l = false) ∧
    (∀ lines, (∀ l ∈ lines, fits l = true) → "7" ∉ menuLines lines →
      (∀ fuel, (∃ w1, (editSecret env fuel w ⟨lines, none⟩ index).2 = .running w1) ∧
        ∀ e ∈ (editSecret env fuel w ⟨lines, none⟩ index).1, e.isEdit = false) ∧
      ∃ final, editBody env index final = (menuPrints ++ [.Scan false ""], .next final) ∧
        ∀ fuel, lines.length + 1 ≤ fuel →
          (editLoop env index fuel ⟨stored, NewScanner ⟨lines, none⟩, w⟩).2 = .running final) ∧
    (∀ items c, (∀ it ∈ items, it.ok = true) → (∀ l ∈ itemLines items, fits l = true) →
      isField c = true →
      ∃ final,
        ((c = "1" → final.secret.Title = "") ∧ (c = "2" → final.secret.Username = "") ∧
          (c = "3" → final.secret.Password = (env.Encrypt "").1) ∧
          (c = "4" → final.secret.Note = "") ∧ (c = "5" → final.secret.Email = "") ∧
          (c = "6" → final.secret.Website = "")) ∧
        editBody env index final = (menuPrints ++ [.Scan false ""], .next final) ∧
        ∀ fuel, items.length + 1 ≤ fuel →
          (editLoop env index fuel ⟨stored, NewScanner ⟨itemLines items ++ [c], none⟩, w⟩).2 =
            .running final) := by
  refine ⟨?_, ?_, ?_⟩
  · intro stdin fuel w1 hret
    by_contra hcon
    simp only [not_or, not_exists, not_and, Bool.not_eq_false, ne_eq, not_not] at hcon
    obtain ⟨h7, hf, hfit⟩ := hcon
    obtain ⟨-, -, h3⟩ := editLoop_no_save env index w stdin.failure fuel stdin.lines stored "" h7
    obtain ⟨st, hst⟩ := h3 hf hfit
    rw [editSecret_of_valid env fuel w stdin index hv hs] at hret
    simp only [hst, EditRun.outcome] at hret
    cases hret
  · intro lines hfit h7
    have h7' : "7" ∉ menuLines (tokensFrom none lines) := by
      rw [tokensFrom_none_of_fits lines hfit]; exact h7
    constructor
    · intro fuel
      obtain ⟨h1, -, h3⟩ := editLoop_no_save env index w none fuel lines stored "" h7'
      obtain ⟨st, hst⟩ := h3 rfl hfit
      rw [editSecret_of_valid env fuel w ⟨lines, none⟩ index hv hs]
      exact ⟨⟨st.w, by simp only [hst, EditRun.outcome]⟩, noEdit_append (header_noEdit _ _) h1⟩
    · obtain ⟨s1, hs1⟩ :=
        editLoop_stalls env index w lines.length lines stored "" le_rfl hfit h7'
      exact ⟨loopState w none s1 [] "", editBody_nil_eof env index w s1 "", hs1⟩
  · intro items c hok hfit hf
    refine ⟨loopState w none (setField env c "" (applyItems env items stored)) [] "", ?_,
      editBody_nil_eof env index w _ "", ?_⟩
    · have hg := setField_get_eq env "" (applyItems env items stored) hf
      refine ⟨?_, ?_, ?_, ?_, ?_, ?_⟩ <;> intro hc <;> subst hc <;>
        simpa [Secret.get, storedValue, loopState] using hg
    · intro fuel hfu
      obtain ⟨k, rfl⟩ : ∃ k, fuel = items.length + (k + 1) :=
        ⟨fuel - (items.length + 1), by omega⟩
      obtain ⟨ev, tok1, -, hrun⟩ :=
        editLoop_items env index w none [c] (k + 1) items stored "" hok hfit
      obtain ⟨ev2, hb, -⟩ :=
        editBody_field_eof env index w (applyItems env items stored) tok1 c
          (fits_of_isField hf) hf
      rw [editLoop_succ_next env index k hb] at hrun
      show (editLoop env index (items.length + (k + 1))
        (loopState w none stored (itemLines items ++ [c]) "")).2 = _
      rw [hrun]
      exact editLoop_fixed env index w _ k

/-- Witness of C10: the input is the one line "3"; the loop stalls with the
password of the working copy set to the encryption of the empty string. -/
theorem editSecret_stalls_at_end_of_input_witness :
    ∃ final : EditState, final.secret.Password = (sampleEnv.Encrypt "").1 ∧
      editBody sampleEnv 0 final = (menuPrints ++ [.Scan false ""], .next final) ∧
      (editLoop sampleEnv 0 4 ⟨sampleSecret, NewScanner ⟨["3"], none⟩, sampleWorld⟩).2 =
        .running final := by
  obtain ⟨final, ⟨-, -, h3, -⟩, hfix, hrun⟩ :=
    (editSecret_stalls_at_end_of_input sampleEnv sampleWorld 0 sampleSecret (by decide)
      (by decide)).2.2 [] "3" (by decide) (by decide) (by decide)
  exact ⟨final, h3 rfl, hfix, hrun 4 (by decide)⟩

/-- C6 fails on the code in two places. (1) `editSecret` discards the error of
`utils.Encrypt`: with an `Encrypt` that fails, choosing the password, typing
"hunter2" and saving calls `Edit` with the empty password that the failed call
returned, prints the success line and no line with the error. (2) `addSecret`
returns without printing anything about an error of `getPassword`: with a
keyboard read error the run ends after the password prompt, with `Add` not
called and no error line printed. -/
theorem swallowed_errors_at_failing_inputs :
    failingEncryptEnv.Encrypt "hunter2" = ("", some "key unavailable") ∧
    (editSecret failingEncryptEnv 5 sampleWorld ⟨["3", "hunter2", "7"], none⟩ 0).1.filter
        Event.isEdit =
      [.Edit (saveWorld failingEncryptEnv sampleWorld) 0
        { sampleSecret with Password := "", UpdatedAt := some 0 }] ∧
    (editSecret failingEncryptEnv 5 sampleWorld ⟨["3", "hunter2", "7"], none⟩ 0).1.filter
        (Event.reports "key unavailable") = [] ∧
    Event.Println ["Secret updated successfully!"] ∈
      (editSecret failingEncryptEnv 5 sampleWorld ⟨["3", "hunter2", "7"], none⟩ 0).1 ∧
    (editSecret failingEncryptEnv 5 sampleWorld ⟨["3", "hunter2", "7"], none⟩ 0).2 =
      .returned
        { secrets := [{ sampleSecret with Password := "", UpdatedAt := some 0 }], heap := [77],
          suggested := 0 } ∧
    (getPassword sampleEnv sampleWorld ⟨none, [⟨0, 0, some "tty closed"⟩]⟩).2.2 =
      .returned [] (some "error reading input: tty closed") ∧
    addSecret sampleEnv sampleWorld ⟨["Bank", "alice"], none⟩ ⟨none, [⟨0, 0, some "tty closed"⟩]⟩ =
      ([.Println ["Adding a new secret..."], .Print "Enter Title: ", .Scan true "Bank",
          .Print "Enter Username: ", .Scan true "alice", .Print passwordPrompt, .KeyboardOpen,
          .GetKey, .KeyboardClose],
        .returned sampleWorld) := by
  refine ⟨rfl, ?_, ?_, ?_, ?_, ?_, ?_⟩ <;> decide

end SecretCli
